import Mathlib

/-!
Shallow embedding of the core of `lammps-util-rust`:
the dump parser (`src/dump_file.rs`, `src/dump_snapshot.rs`), the columnar
snapshot store and its transforms (`src/dump_snapshot.rs`), the clustering
engine (`src/clusterizer.rs`), the spatial-index point type (`src/xyz.rs`)
and the max-cluster reduction of `crater-analysis/src/main.rs`.

Modelling conventions:
* text lines are `Str := List Char`; a file is a `List Str` of its lines;
* the numeric carrier for `f64`/`f32` columns is `Int` with an exact
  decimal integer printer/parser standing in for Rust's `Display`/`parse`
  (IEEE-754 formatting itself is not modelled);
* Rust `HashMap<String, usize>` column maps (whose indices are always
  `0..len` by construction) are represented as the list of keys in column
  order; `HashMap`/`HashSet` iteration order, which Rust leaves
  unspecified, is made an explicit parameter wherever the source iterates
  an unordered container.
-/

abbrev Str := List Char

/-- Whitespace test, as in Rust's `char::is_whitespace`. -/
def isWS (c : Char) : Bool := c.isWhitespace

/-- `str::split_whitespace`: maximal runs of non-whitespace characters.
The accumulator holds the reversed pending token. -/
def splitWSAux : Str → Str → List Str
  | [], acc => if acc.isEmpty then [] else [acc.reverse]
  | c :: rest, acc =>
    if isWS c then
      if acc.isEmpty then splitWSAux rest []
      else acc.reverse :: splitWSAux rest []
    else splitWSAux rest (c :: acc)

def splitWS (s : Str) : List Str := splitWSAux s []

/-- A token: nonempty and free of whitespace characters. -/
def IsTok (t : Str) : Prop := t ≠ [] ∧ ∀ c ∈ t, isWS c = false

/-- Join tokens with single spaces, as the writer's `join(" ")` does. -/
def joinTokens : List Str → Str
  | [] => []
  | [t] => t
  | t :: ts => t ++ ' ' :: joinTokens ts

theorem splitWS_nil : splitWS [] = [] := rfl

theorem splitWSAux_token (t : Str) (hws : ∀ c ∈ t, isWS c = false) :
    ∀ acc s', splitWSAux (t ++ s') acc = splitWSAux s' (t.reverse ++ acc) := by
  induction t with
  | nil => intro acc s'; simp
  | cons c t ih =>
    intro acc s'
    rw [List.cons_append, splitWSAux]
    rw [if_neg (by simp [hws c (by simp)])]
    rw [ih (fun d hd => hws d (by simp [hd])) (c :: acc) s']
    simp

theorem splitWS_ws_cons {c : Char} (hc : isWS c = true) (s : Str) :
    splitWS (c :: s) = splitWS s := by
  rw [splitWS, splitWSAux, if_pos hc]
  simp [splitWS]

theorem splitWS_tok_append (t : Str) (ht : IsTok t) (s : Str) :
    splitWS (t ++ ' ' :: s) = t :: splitWS s := by
  obtain ⟨hne, hws⟩ := ht
  rw [splitWS, splitWSAux_token t hws [] (' ' :: s)]
  rw [splitWSAux, if_pos (by decide)]
  rw [if_neg (by simp [hne])]
  simp [splitWS]

theorem splitWS_tok (t : Str) (ht : IsTok t) : splitWS t = [t] := by
  obtain ⟨hne, hws⟩ := ht
  rw [splitWS, show t = t ++ [] by simp, splitWSAux_token t hws [] []]
  rw [splitWSAux, if_neg (by simp [hne])]
  simp

theorem joinTokens_cons_cons (t u : Str) (us : List Str) :
    joinTokens (t :: u :: us) = t ++ ' ' :: joinTokens (u :: us) := rfl

theorem splitWS_joinTokens (ts : List Str) (h : ∀ t ∈ ts, IsTok t) :
    splitWS (joinTokens ts) = ts := by
  induction ts with
  | nil => simp [joinTokens, splitWS_nil]
  | cons t ts ih =>
    cases ts with
    | nil => exact splitWS_tok t (h t (by simp))
    | cons u us =>
      rw [joinTokens_cons_cons, splitWS_tok_append t (h t (by simp))]
      rw [ih (fun v hv => h v (by simp [hv]))]

/-- Decimal digit characters. -/
def digitChar : Nat → Char
  | 0 => '0' | 1 => '1' | 2 => '2' | 3 => '3' | 4 => '4'
  | 5 => '5' | 6 => '6' | 7 => '7' | 8 => '8' | 9 => '9'
  | _ => '*'

/-- Numeric value of a digit character (`c as u32 - '0' as u32`). -/
def digitVal (c : Char) : Nat := c.toNat - '0'.toNat

/-- Decimal printing of a natural number, modelling Rust's `Display`.
The first argument is recursion fuel; `n + 1` always suffices. -/
def printNatAux : Nat → Nat → Str → Str
  | 0, _, acc => acc
  | fuel + 1, n, acc =>
    if n < 10 then digitChar n :: acc
    else printNatAux fuel (n / 10) (digitChar (n % 10) :: acc)

def printNat (n : Nat) : Str := printNatAux (n + 1) n []

/-- Decimal parsing of a natural number, modelling `str::parse::<u64>`
(the model uses unbounded `Nat`, so overflow is out of scope). -/
def parseNat (s : Str) : Option Nat :=
  if s ≠ [] ∧ s.all Char.isDigit then
    some (s.foldl (fun n c => n * 10 + digitVal c) 0)
  else none

theorem printNatAux_eq (n : Nat) :
    ∀ fuel, n < fuel → ∀ acc, printNatAux fuel n acc = printNat n ++ acc := by
  induction n using Nat.strong_induction_on with
  | _ n ih =>
    intro fuel hf acc
    cases fuel with
    | zero => omega
    | succ fuel =>
      by_cases h : n < 10
      · rw [printNatAux, if_pos h, printNat, printNatAux, if_pos h]; simp
      · have hdiv : n / 10 < n := Nat.div_lt_self (by omega) (by omega)
        rw [printNatAux, if_neg h, ih (n / 10) hdiv fuel (by omega) _]
        conv_rhs => rw [printNat, printNatAux, if_neg h,
          ih (n / 10) hdiv n (by omega) _]
        simp

theorem printNat_lt10 {n : Nat} (h : n < 10) : printNat n = [digitChar n] := by
  rw [printNat, printNatAux, if_pos h]

theorem printNat_ge10 {n : Nat} (h : ¬ n < 10) :
    printNat n = printNat (n / 10) ++ [digitChar (n % 10)] := by
  rw [printNat, printNatAux, if_neg h]
  exact printNatAux_eq (n / 10) n
    (by
      have hdiv : n / 10 < n := Nat.div_lt_self (by omega) (by omega)
      omega) _

theorem digitChar_isDigit {d : Nat} (h : d < 10) :
    (digitChar d).isDigit = true := by
  interval_cases d <;> decide

theorem digitChar_not_ws {d : Nat} (h : d < 10) : isWS (digitChar d) = false := by
  interval_cases d <;> decide

theorem digitVal_digitChar {d : Nat} (h : d < 10) : digitVal (digitChar d) = d := by
  interval_cases d <;> decide

theorem printNat_spec (n : Nat) :
    printNat n ≠ [] ∧
      (∀ c ∈ printNat n, c.isDigit = true ∧ isWS c = false) ∧
      (∀ a : Nat, (printNat n).foldl (fun m c => m * 10 + digitVal c) a =
        a * 10 ^ (printNat n).length + n) := by
  induction n using Nat.strong_induction_on with
  | _ n ih
  =>
    by_cases h : n < 10
    · rw [printNat_lt10 h]
      refine ⟨by simp, ?_, ?_⟩
      · intro c hc
        simp only [List.mem_singleton] at hc
        rw [hc]; exact ⟨digitChar_isDigit h, digitChar_not_ws h⟩
      · intro a
        simp [digitVal_digitChar h]
    · rw [printNat_ge10 h]
      obtain ⟨h1, h2, h3⟩ := ih (n / 10) (Nat.div_lt_self (by omega) (by omega))
      refine ⟨by simp [h1], ?_, ?_⟩
      · intro c hc
        rw [List.mem_append] at hc
        rcases hc with hc | hc
        · exact h2 c hc
        · simp only [List.mem_singleton] at hc
          rw [hc]
          exact ⟨digitChar_isDigit (Nat.mod_lt _ (by omega)),
            digitChar_not_ws (Nat.mod_lt _ (by omega))⟩
      · intro a
        rw [List.foldl_append, h3 a]
        simp only [List.foldl_cons, List.foldl_nil, List.length_append,
          List.length_singleton]
        rw [digitVal_digitChar (Nat.mod_lt _ (by omega))]
        rw [pow_succ]
        have hdm : 10 * (n / 10) + n % 10 = n := Nat.div_add_mod n 10
        ring_nf
        omega

theorem parseNat_printNat (n : Nat) : parseNat (printNat n) = some n := by
  obtain ⟨h1, h2, h3⟩ := printNat_spec n
  rw [parseNat,
    if_pos ⟨h1, by rw [List.all_eq_true]; exact fun c hc => (h2 c hc).1⟩]
  rw [h3 0]; simp

theorem printNat_isTok (n : Nat) : IsTok (printNat n) := by
  obtain ⟨h1, h2, _⟩ := printNat_spec n
  exact ⟨h1, fun c hc => (h2 c hc).2⟩

/-- Decimal printing of an `Int`, modelling Rust's `Display` for numeric
columns (the exact-integer stand-in for `f64` formatting). -/
def printInt (i : Int) : Str :=
  if i < 0 then '-' :: printNat i.natAbs else printNat i.toNat

/-- Parsing of a numeric token, modelling `str::parse::<f64>` on the
exact-integer carrier: optional leading minus, then decimal digits. -/
def parseInt (s : Str) : Option Int :=
  if s.head? = some '-' then (parseNat s.tail).map (fun n => -(n : Int))
  else (parseNat s).map (fun n => (n : Int))

theorem parseNat_head_not_dash {s : Str} {n : Nat} (h : parseNat s = some n) :
    ¬ s.head? = some '-' := by
  rw [parseNat] at h
  by_cases hc : s ≠ [] ∧ s.all Char.isDigit
  · obtain ⟨hne, hall⟩ := hc
    cases s with
    | nil => simp
    | cons c t =>
      simp only [List.head?_cons, Option.some_inj]
      intro he
      rw [List.all_cons, Bool.and_eq_true] at hall
      rw [he] at hall
      exact absurd hall.1 (by decide)
  · rw [if_neg hc] at h; exact absurd h (by simp)

theorem parseInt_eq_of_parseNat {s : Str} {n : Nat} (h : parseNat s = some n) :
    parseInt s = some (n : Int) := by
  rw [parseInt, if_neg (parseNat_head_not_dash h), h]
  rfl

theorem parseInt_printInt (i : Int) : parseInt (printInt i) = some i := by
  rw [printInt]
  by_cases h : i < 0
  · rw [if_pos h, parseInt]
    simp only [List.head?_cons, if_pos rfl, List.tail_cons]
    rw [parseNat_printNat i.natAbs]
    show (some (-(i.natAbs : Int)) : Option Int) = some i
    simp only [Option.some_inj]
    omega
  · rw [if_neg h]
    rw [parseInt_eq_of_parseNat (parseNat_printNat i.toNat)]
    simp only [Option.some_inj]
    omega

theorem printInt_isTok (i : Int) : IsTok (printInt i) := by
  rw [printInt]
  by_cases h : i < 0
  · rw [if_pos h]
    obtain ⟨h1, h2⟩ := printNat_isTok i.natAbs
    refine ⟨List.cons_ne_nil _ _, ?_⟩
    intro c hc
    rcases List.mem_cons.mp hc with hc | hc
    · rw [hc]; decide
    · exact h2 c hc
  · rw [if_neg h]; exact printNat_isTok i.toNat

/-! ### Flat-buffer writes -/

/-- Apply a list of `(index, value)` writes to a flat buffer with
`Vec`-style `set`. -/
def setMany (buf : List Int) (ws : List (Nat × Int)) : List Int :=
  ws.foldl (fun b p => b.set p.1 p.2) buf

theorem setMany_nil (buf : List Int) : setMany buf [] = buf := rfl

theorem setMany_cons (buf : List Int) (p : Nat × Int) (ws : List (Nat × Int)) :
    setMany buf (p :: ws) = setMany (buf.set p.1 p.2) ws := rfl

theorem setMany_length (buf : List Int) (ws : List (Nat × Int)) :
    (setMany buf ws).length = buf.length := by
  induction ws generalizing buf with
  | nil => rfl
  | cons p ws ih => rw [setMany_cons, ih, List.length_set]

theorem setMany_getD_of_not_mem {buf : List Int} {ws : List (Nat × Int)}
    {k : Nat} (h : ∀ p ∈ ws, p.1 ≠ k) :
    (setMany buf ws).getD k 0 = buf.getD k 0 := by
  induction ws generalizing buf with
  | nil => rfl
  | cons p ws ih =>
    rw [setMany_cons, ih (fun q hq => h q (by simp [hq]))]
    simp only [List.getD_eq_getElem?_getD]
    rw [List.getElem?_set_ne (h p (by simp))]

theorem setMany_getD_of_mem {buf : List Int} {ws : List (Nat × Int)}
    {k : Nat} {v : Int} (hnd : (ws.map Prod.fst).Nodup)
    (hmem : (k, v) ∈ ws) (hk : k < buf.length) :
    (setMany buf ws).getD k 0 = v := by
  induction ws generalizing buf with
  | nil => simp at hmem
  | cons p ws ih =>
    rw [setMany_cons]
    rcases List.mem_cons.mp hmem with hmem | hmem
    · subst hmem
      rw [List.map_cons, List.nodup_cons] at hnd
      rw [setMany_getD_of_not_mem (fun q hq => by
        intro hqk
        exact hnd.1 (List.mem_map.mpr ⟨q, hq, hqk⟩))]
      simp only [List.getD_eq_getElem?_getD]
      rw [List.getElem?_set_self' ]
      simp [hk]
    · rw [List.map_cons, List.nodup_cons] at hnd
      exact ih hnd.2 hmem (by rw [List.length_set]; exact hk)

/-! ### Data model (src/dump_snapshot.rs) -/

/-- Literal header tokens of the dump text format. -/
def HEADER_TIMESTEP : Str := "ITEM: TIMESTEP".toList

def HEADER_NUM_OF_ATOMS : Str := "ITEM: NUMBER OF ATOMS".toList

def HEADER_SYM_BOX : Str := "ITEM: BOX BOUNDS".toList

def HEADER_ATOMS : Str := "ITEM: ATOMS".toList

/-- `SymBox`: boundary-condition tag plus the bounding box, stored as the
three `(lo, hi)` pairs read from the box-bounds block. -/
structure SymBox where
  boundaries : Str
  bounds : List (Int × Int)
deriving DecidableEq

/-- `DumpSnapshot`: one timestep's columnar store.  `keys` is the
property-name → column-index `HashMap` represented as the list of names in
column order (its indices are `0..len` by construction); `atoms` is the
flat property-major buffer of `atoms_count * keys.length` values. -/
structure DumpSnapshot where
  step : Nat
  atoms_count : Nat
  sym_box : SymBox
  keys : List Str
  atoms : List Int
deriving DecidableEq

/-- `DumpParsingError` (src/dump_file.rs); the `IO` variant is outside the
model. -/
inductive DumpParsingError
  | InvalidOrMissingTimestep
  | InvalidOrMissingNumberOfAtoms
  | MissingSymBox
  | MissingAtomKeys
  | DuplicateAtomKeys
  | DuplicateSnapshots
  | InvalidOrMissingAtomRow
deriving DecidableEq

/-- `DumpSnapshot::get_atom_value`:
`self.atoms[self.atoms_count * property_index + atom_index]`. -/
def DumpSnapshot.get_atom_value (s : DumpSnapshot) (j i : Nat) : Int :=
  s.atoms.getD (s.atoms_count * j + i) 0

/-- `DumpSnapshot::set_atom_value`. -/
def DumpSnapshot.set_atom_value (s : DumpSnapshot) (j i : Nat) (v : Int) :
    DumpSnapshot :=
  { s with atoms := s.atoms.set (s.atoms_count * j + i) v }

/-- `DumpSnapshot::new`: zero-filled buffer of `atoms_count * keys.len()`
values. -/
def DumpSnapshot.new (keys : List Str) (step atoms_count : Nat)
    (sym_box : SymBox) : DumpSnapshot :=
  { step := step, atoms_count := atoms_count, sym_box := sym_box,
    keys := keys, atoms := List.replicate (atoms_count * keys.length) 0 }

/-- `DumpSnapshot::get_property_index` (`self.keys[key]`). -/
def DumpSnapshot.get_property_index (s : DumpSnapshot) (key : Str) : Nat :=
  s.keys.indexOf key

/-- `DumpSnapshot::get_property`: the column of `key`, i.e. the
`atoms_count` values starting at `keys[key] * atoms_count`. -/
def DumpSnapshot.get_property (s : DumpSnapshot) (key : Str) : List Int :=
  (s.atoms.drop (s.get_property_index key * s.atoms_count)).take s.atoms_count

/-- `str::split_at_checked`. -/
def splitAtChecked (s : Str) (n : Nat) : Option (Str × Str) :=
  if n ≤ s.length then some (s.take n, s.drop n) else none

/-- One box-bounds line: the first two whitespace tokens, each put through
the numeric parser (`s.next().and_then(|s| s.parse().ok())`). -/
def parseBoundsLine (l : Str) : Option Int × Option Int :=
  (((splitWS l)[0]?).bind parseInt, ((splitWS l)[1]?).bind parseInt)

/-- The `(0..3).filter_map(...)` / `filter_map` pipeline of
`DumpSnapshot::read`: read up to three following lines, keep the pairs in
which both tokens parsed. -/
def readBorders (ls : List Str) : List (Int × Int) :=
  ((ls.take 3).map parseBoundsLine).filterMap
    (fun p => match p with
      | (some lo, some hi) => some (lo, hi)
      | _ => none)

/-- The duplicate-checking key fold of `DumpSnapshot::read`:
`keys_map.insert(token, len).is_some()` aborts with `DuplicateAtomKeys`. -/
def buildKeys (tokens : List Str) : Except DumpParsingError (List Str) :=
  tokens.foldlM
    (fun acc t =>
      if t ∈ acc then Except.error DumpParsingError.DuplicateAtomKeys
      else Except.ok (acc ++ [t]))
    []

/-- The writes performed for one data row `i`: token `j` goes to buffer
offset `count * j + i`. -/
def rowWrites (count i : Nat) (vals : List Int) : List (Nat × Int) :=
  vals.enum.map (fun p => (count * p.1 + i, p.2))

/-- The row loop of `DumpSnapshot::read`: rows are applied in order, row
`i0 + k` writing each of its parsed values. -/
def writeRows (count : Nat) (buf : List Int) (i0 : Nat) :
    List (List Int) → List Int
  | [] => buf
  | vals :: rest => writeRows count (setMany buf (rowWrites count i0 vals)) (i0 + 1) rest

/-- Row collection of `DumpSnapshot::read`: each of the `n` data rows must
be present (`InvalidOrMissingAtomRow` otherwise); a present row is split
on whitespace and passed through `flat_map(str::parse)`, which keeps the
parseable tokens and silently drops the rest. -/
def readRows (lines : List Str) (n : Nat) :
    Except DumpParsingError (List (List Int)) :=
  (List.range n).mapM
    (fun i =>
      match lines[i]? with
      | none => Except.error DumpParsingError.InvalidOrMissingAtomRow
      | some l => Except.ok ((splitWS l).filterMap parseInt))

/-- `DumpSnapshot::read` (src/dump_snapshot.rs, lines 55–118), starting
after the timestep/count header pairs that `DumpFile::read` consumed.  On
success it consumes exactly `5 + atoms_count` lines. -/
def DumpSnapshot.read (lines : List Str) (step n : Nat) :
    Except DumpParsingError DumpSnapshot := do
  let boundariesRaw ←
    match lines[0]? with
    | none => Except.error DumpParsingError.MissingSymBox
    | some l =>
      match splitAtChecked l HEADER_SYM_BOX.length with
      | none => Except.error DumpParsingError.MissingSymBox
      | some p => Except.ok p.2
  let borders := readBorders (lines.drop 1)
  if borders.length ≠ 3 then Except.error DumpParsingError.MissingSymBox else
  let symBox : SymBox :=
    { boundaries := boundariesRaw.drop 1, bounds := borders }
  let keyTokens ←
    match lines[4]? with
    | none => Except.error DumpParsingError.MissingAtomKeys
    | some l =>
      match splitAtChecked l HEADER_ATOMS.length with
      | none => Except.error DumpParsingError.MissingAtomKeys
      | some p => Except.ok (splitWS p.2)
  let keys ← buildKeys keyTokens
  let init := DumpSnapshot.new keys step n symBox
  let rows ← readRows (lines.drop 5) n
  Except.ok { init with atoms := writeRows n init.atoms 0 rows }

/-- `DumpSnapshot::write` (src/dump_snapshot.rs, lines 120–141), as the
list of lines it emits. -/
def DumpSnapshot.write (s : DumpSnapshot) : List Str :=
  [HEADER_TIMESTEP, printNat s.step,
   HEADER_NUM_OF_ATOMS, printNat s.atoms_count,
   HEADER_SYM_BOX ++ ' ' :: s.sym_box.boundaries] ++
  s.sym_box.bounds.map (fun p => printInt p.1 ++ ' ' :: printInt p.2) ++
  [HEADER_ATOMS ++ ' ' :: joinTokens s.keys] ++
  (List.range s.atoms_count).map (fun i =>
    joinTokens ((List.range s.keys.length).map
      (fun j => printInt (s.get_atom_value j i))))

/-! ### Dump file collection (src/dump_file.rs) -/

/-- The timestep-keyed snapshot collection.  The `HashMap<u64,
DumpSnapshot>` is represented as an association list (keys unique on the
parsing path, which checks before inserting). -/
structure DumpFile where
  snapshots : List (Nat × DumpSnapshot)
deriving DecidableEq

/-- `HashMap::entry(k).insert_entry(v)`: overwrite the value when the key
exists, append otherwise. -/
def mapInsertEntry (m : List (Nat × DumpSnapshot)) (k : Nat)
    (v : DumpSnapshot) : List (Nat × DumpSnapshot) :=
  if m.any (fun p => p.1 = k) then
    m.map (fun p => if p.1 = k then (k, v) else p)
  else m ++ [(k, v)]

/-- `DumpFile::new` (src/dump_file.rs, lines 35–43): fold the vector into
the map with `entry(step).insert_entry(snapshot)`; never fails. -/
def DumpFile.new (snaps : List DumpSnapshot) : DumpFile :=
  ⟨snaps.foldl (fun m s => mapInsertEntry m s.step s) []⟩

/-- Key lookup in the collection. -/
def DumpFile.find? (d : DumpFile) (t : Nat) : Option DumpSnapshot :=
  (d.snapshots.find? (fun p => p.1 = t)).map Prod.snd

/-- The loop of `DumpFile::read` (src/dump_file.rs, lines 58–92).
Line consumption per iteration: the two `(header, value)` pairs are four
lines; a skipped block then drops `number_of_atoms + 5` lines (the
`0..=(number_of_atoms + 4)` loop); a materialized block consumes the
`5 + atoms_count` lines of `DumpSnapshot::read`.

A first line that is absent **or** differs from `ITEM: TIMESTEP` ends the
read successfully (the source filters the line before matching, so both
become the `(None, _)` arm). -/
def DumpFile.readLoopAux (fuel : Nat) (lines : List Str)
    (timesteps : List Nat) (acc : List (Nat × DumpSnapshot)) :
    Except DumpParsingError (List (Nat × DumpSnapshot)) :=
  match fuel with
  | 0 => Except.ok acc
  | fuel + 1 =>
  match lines with
  | [] => Except.ok acc
  | l0 :: rest1 =>
    if l0 ≠ HEADER_TIMESTEP then Except.ok acc
    else
      match rest1 with
      | [] => Except.error DumpParsingError.InvalidOrMissingTimestep
      | l1 :: rest2 =>
        match parseNat l1 with
        | none => Except.error DumpParsingError.InvalidOrMissingTimestep
        | some timestep =>
          match rest2 with
          | [] => Except.error DumpParsingError.InvalidOrMissingNumberOfAtoms
          | l2 :: rest3 =>
            if l2 ≠ HEADER_NUM_OF_ATOMS then
              Except.error DumpParsingError.InvalidOrMissingNumberOfAtoms
            else
              match rest3 with
              | [] => Except.error DumpParsingError.InvalidOrMissingNumberOfAtoms
              | l3 :: rest =>
                match parseNat l3 with
                | none =>
                  Except.error DumpParsingError.InvalidOrMissingNumberOfAtoms
                | some number_of_atoms =>
                  if timesteps ≠ [] ∧ timestep > timesteps.getLastD 0 then
                    Except.ok acc
                  else if timesteps ≠ [] ∧ timestep ∉ timesteps then
                    DumpFile.readLoopAux fuel (rest.drop (number_of_atoms + 5))
                      timesteps acc
                  else if acc.any (fun p => p.1 = timestep) then
                    Except.error DumpParsingError.DuplicateSnapshots
                  else
                    match DumpSnapshot.read rest timestep number_of_atoms with
                    | Except.error e => Except.error e
                    | Except.ok snap =>
                      DumpFile.readLoopAux fuel (rest.drop (5 + number_of_atoms))
                        timesteps (acc ++ [(timestep, snap)])

/-- The loop with always-sufficient fuel. -/
def DumpFile.readLoop (lines : List Str) (timesteps : List Nat)
    (acc : List (Nat × DumpSnapshot)) :
    Except DumpParsingError (List (Nat × DumpSnapshot)) :=
  DumpFile.readLoopAux (lines.length + 1) lines timesteps acc

/-- Insertion of a value into a sorted list (ascending). -/
def sortedInsert (x : Nat) : List Nat → List Nat
  | [] => [x]
  | y :: ys => if x ≤ y then x :: y :: ys else y :: sortedInsert x ys

/-- `timesteps.sort_unstable()`: ascending sort of the requested steps. -/
def sortNat (l : List Nat) : List Nat := l.foldr sortedInsert []

/-- `DumpFile::read` on a list of lines: sort the requested timesteps,
then run the block loop with an empty collection. -/
def DumpFile.read (lines : List Str) (timesteps : List Nat) :
    Except DumpParsingError DumpFile :=
  (DumpFile.readLoop lines (sortNat timesteps) []).map DumpFile.mk

theorem readLoopAux_fuel_irrel (f1 : Nat) :
    ∀ f2 lines timesteps acc, lines.length < f1 → lines.length < f2 →
      DumpFile.readLoopAux f1 lines timesteps acc =
        DumpFile.readLoopAux f2 lines timesteps acc := by
  induction f1 with
  | zero => intro f2 lines ts acc h1 h2; omega
  | succ f1 ih =>
    intro f2 lines ts acc h1 h2
    cases f2 with
    | zero => omega
    | succ f2 =>
      rw [DumpFile.readLoopAux.eq_def, DumpFile.readLoopAux.eq_def]
      simp only
      cases lines with
      | nil => rfl
      | cons l0 rest1 =>
        simp only
        by_cases h0 : l0 ≠ HEADER_TIMESTEP
        · rw [if_pos h0, if_pos h0]
        · rw [if_neg h0, if_neg h0]
          cases rest1 with
          | nil => rfl
          | cons l1 rest2 =>
            simp only
            cases parseNat l1 with
            | none => rfl
            | some timestep =>
              simp only
              cases rest2 with
              | nil => rfl
              | cons l2 rest3 =>
                simp only
                by_cases h2' : l2 ≠ HEADER_NUM_OF_ATOMS
                · rw [if_pos h2', if_pos h2']
                · rw [if_neg h2', if_neg h2']
                  cases rest3 with
                  | nil => rfl
                  | cons l3 rest =>
                    simp only
                    cases parseNat l3 with
                    | none => rfl
                    | some n =>
                      simp only [List.length_cons] at h1 h2
                      split
                      · rfl
                      rename_i x m heq
                      injection heq with hm
                      subst hm
                      by_cases hstop : ts ≠ [] ∧ timestep > ts.getLastD 0
                      · rw [if_pos hstop, if_pos hstop]
                      · rw [if_neg hstop, if_neg hstop]
                        by_cases hskip : ts ≠ [] ∧ timestep ∉ ts
                        · rw [if_pos hskip, if_pos hskip]
                          refine ih f2 _ ts acc ?_ ?_ <;>
                            (simp only [List.length_drop]; omega)
                        · rw [if_neg hskip, if_neg hskip]
                          by_cases hdup : acc.any (fun p => p.1 = timestep)
                          · rw [if_pos hdup, if_pos hdup]
                          · rw [if_neg hdup, if_neg hdup]
                            cases DumpSnapshot.read rest timestep n with
                            | error e => rfl
                            | ok snap =>
                              refine ih f2 _ ts _ ?_ ?_ <;>
                                (simp only [List.length_drop]; omega)

theorem readLoopAux_eq_readLoop {fuel : Nat} {lines : List Str}
    (timesteps : List Nat) (acc : List (Nat × DumpSnapshot))
    (h : lines.length < fuel) :
    DumpFile.readLoopAux fuel lines timesteps acc =
      DumpFile.readLoop lines timesteps acc :=
  readLoopAux_fuel_irrel fuel (lines.length + 1) lines timesteps acc h
    (by omega)

/-! ### Snapshot transforms (src/dump_snapshot.rs, lines 206–254) -/

/-- `copy_snapshot_with_indices_with_keys`: clone the column map, append
the additional keys, then copy every input property's value for each
selected row (the added columns stay zero-filled).  The model represents
the `HashMap` as the ordered key list, so it covers additional keys not
already present (re-inserting an existing key would corrupt the map's
index bijection). -/
def copy_snapshot_with_indices_with_keys (inp : DumpSnapshot)
    (additional : List Str) (indices : List Nat) : DumpSnapshot :=
  let snap := DumpSnapshot.new (inp.keys ++ additional) inp.step
    indices.length inp.sym_box
  { snap with
    atoms := writeRows indices.length snap.atoms 0
      (indices.map (fun i =>
        (List.range inp.keys.length).map (fun j => inp.get_atom_value j i))) }

/-- `copy_snapshot_with_indices` (src/dump_snapshot.rs, lines 214–219). -/
def copy_snapshot_with_indices (inp : DumpSnapshot) (indices : List Nat) :
    DumpSnapshot :=
  copy_snapshot_with_indices_with_keys inp [] indices

/-- `copy_snapshot_with_keys`. -/
def copy_snapshot_with_keys (inp : DumpSnapshot) (additional : List Str) :
    DumpSnapshot :=
  copy_snapshot_with_indices_with_keys inp additional
    (List.range inp.atoms_count)

/-- `copy_snapshot`. -/
def copy_snapshot (inp : DumpSnapshot) : DumpSnapshot :=
  copy_snapshot_with_indices_with_keys inp [] (List.range inp.atoms_count)

/-! ### Spatial-index points (src/xyz.rs) -/

/-- `XYZ`: a 3-D point plus the row index it was built from.  The numeric
carrier stands in for the `f32` coordinate bits. -/
structure XYZ where
  x : Int
  y : Int
  z : Int
  index : Nat
deriving DecidableEq

/-- The derived `PartialEq` of `XYZ` (src/xyz.rs line 7): field-by-field
comparison of **all** fields, the coordinates and the row index. -/
def xyzBeq (a b : XYZ) : Bool :=
  a.x == b.x && a.y == b.y && a.z == b.z && a.index == b.index

/-- The stream of words the derived `Hash` of `XYZ` feeds to the hasher:
every field in declaration order.  Two values hash identically whenever
their streams are equal. -/
def xyzHashStream (p : XYZ) : List Int :=
  [p.x, p.y, p.z, (p.index : Int)]

/-- Squared Euclidean distance (`Point3::distance_squared`). -/
def distance_squared (a b : XYZ) : Int :=
  (a.x - b.x) ^ 2 + (a.y - b.y) ^ 2 + (a.z - b.z) ^ 2

/-- `XYZ::check_cutoff`: squared-distance comparison. -/
def check_cutoff (a b : XYZ) (cutoff : Int) : Bool :=
  distance_squared a b ≤ cutoff * cutoff

/-! ### Clustering engine (src/clusterizer.rs) -/

def clusterKey : Str := "cluster".toList

/-- `Clusterizer` state: the extended snapshot and the cached column
indices. -/
structure Clusterizer where
  snapshot : DumpSnapshot
  x_j : Nat
  y_j : Nat
  z_j : Nat
  cutoff : Int

/-- `Clusterizer::new`: append a `"cluster"` column and copy every input
column (the fold in the source performs exactly the row-copy of
`copy_snapshot_with_keys`).  The column-map model covers the case where
`"cluster"` is not already a key of the input (re-inserting an existing
key would corrupt the map's index bijection).  The source asserts
`cutoff >= 0.0`; the theorems carry it as a hypothesis. -/
def Clusterizer.new (inp : DumpSnapshot) (cutoff : Int) : Clusterizer :=
  { snapshot := copy_snapshot_with_keys inp [clusterKey]
    x_j := (inp.keys ++ [clusterKey]).indexOf "x".toList
    y_j := (inp.keys ++ [clusterKey]).indexOf "y".toList
    z_j := (inp.keys ++ [clusterKey]).indexOf "z".toList
    cutoff := cutoff }

/-- `Clusterizer::get_atom_xyz`, tagged with its row index as in
`DumpSnapshot::get_coordinates`. -/
def Clusterizer.get_atom_xyz (c : Clusterizer) (i : Nat) : XYZ :=
  { x := c.snapshot.get_atom_value c.x_j i
    y := c.snapshot.get_atom_value c.y_j i
    z := c.snapshot.get_atom_value c.z_j i
    index := i }

/-- `kd_tree::KdTree::within_radius`, modelled from the spec (§4.3, the
crate is an external dependency): all indexed points with Euclidean
distance ≤ r from the query point, compared in squared form. -/
def withinRadius (atoms : List XYZ) (q : XYZ) (cutoff : Int) : List XYZ :=
  atoms.filter (fun p => distance_squared p q ≤ cutoff * cutoff)

/-- The `atoms_map` lookup: `entry(xyz).insert_entry(i)` keeps the **last**
index inserted for a given `XYZ` value. -/
def atomsMap (atoms : List XYZ) (p : XYZ) : Nat :=
  ((atoms.enum.filter (fun q => q.2 = p)).map Prod.fst).getLastD 0

/-- The neighbor indices one flood-fill step visits from row `i`: query
the index for everything within the cutoff of `atoms[i]`, then translate
each returned point back to a row index through `atoms_map`. -/
def neighborIdx (atoms : List XYZ) (cutoff : Int) (i : Nat) : List Nat :=
  (withinRadius atoms (atoms.getD i ⟨0, 0, 0, 0⟩) cutoff).map (atomsMap atoms)

/-- Mark a batch of rows visited. -/
def markAll (v : List Bool) (fresh : List Nat) : List Bool :=
  fresh.foldl (fun v j => v.set j true) v

/-- The inner flood fill of `Clusterizer::clusterize`: pop a row, record
it in the current cluster, push its not-yet-visited neighbors (marking
them visited at push time).  Fuel-based; `unvisited + stack.length < fuel`
always terminates the stack before the fuel. -/
def floodAux (adj : Nat → List Nat) :
    Nat → List Bool → List Nat → List Nat → List Nat × List Bool
  | 0, visited, _, cluster => (cluster, visited)
  | fuel + 1, visited, stack, cluster =>
    match stack with
    | [] => (cluster, visited)
    | i :: rest =>
      let fresh := (adj i).filter (fun j => !(visited.getD j true))
      floodAux adj fuel (markAll visited fresh) (fresh ++ rest)
        (cluster.insert i)

/-- The outer row loop of `Clusterizer::clusterize`: seed a new cluster at
every not-yet-visited row, in increasing row order. -/
def clusterizeLoop (adj : Nat → List Nat) (n : Nat) :
    List Nat → List Bool → List (List Nat) → List (List Nat) × List Bool
  | [], visited, comps => (comps, visited)
  | i :: is, visited, comps =>
    if visited.getD i true then clusterizeLoop adj n is visited comps
    else
      let p := floodAux adj (n + 1) (visited.set i true) [i] []
      clusterizeLoop adj n is p.2 (comps ++ [p.1])

/-- The cluster sets `Clusterizer::clusterize` discovers on a snapshot of
`n` rows. -/
def Clusterizer.components (c : Clusterizer) : List (List Nat) :=
  let n := c.snapshot.atoms_count
  let atoms := (List.range n).map c.get_atom_xyz
  (clusterizeLoop (neighborIdx atoms c.cutoff) n (List.range n)
    (List.replicate n false) []).1

/-- `Clusterizer::clusterize` (src/clusterizer.rs, lines 56–110).
`choose` models `current_cluster.iter().take(1).next().unwrap()`, the
first element of the `HashSet`'s unspecified iteration order; any function
satisfying `choose l ∈ l` for nonempty `l` is a possible run.  For each
row the final loop finds the cluster containing it and writes the `"id"`
value of the chosen representative into the `"cluster"` column. -/
def Clusterizer.clusterize (choose : List Nat → Nat) (c : Clusterizer) :
    DumpFile :=
  let n := c.snapshot.atoms_count
  let comps := c.components
  let cluster_j := c.snapshot.get_property_index clusterKey
  let id_j := c.snapshot.get_property_index "id".toList
  let labeled := (List.range n).foldl
    (fun snap atom_i =>
      let rep := choose ((comps.find? (fun comp => atom_i ∈ comp)).getD [])
      snap.set_atom_value cluster_j atom_i (snap.get_atom_value id_j rep))
    c.snapshot
  DumpFile.new [labeled]

/-! ### Max-cluster reduction (crater-analysis/src/main.rs, `get_crater_info`) -/

/-- The per-cluster atom counts of the `"cluster"` column
(`cluster as u64` with counts accumulated in a `HashMap`).  `Int.toNat`
saturates negatives to zero exactly as the `f64 → u64` cast does. -/
def clusterCounts (cluster : List Int) (c : Nat) : Nat :=
  (cluster.filter (fun v => v.toNat = c)).length

/-- A possible iteration order of the count map: some enumeration of the
`(cluster, count)` entries, each key occurring exactly once. -/
def IsCountEnum (cluster : List Int) (entries : List (Nat × Nat)) : Prop :=
  (entries.map Prod.fst).Nodup ∧
    (∀ p ∈ entries, p.2 = clusterCounts cluster p.1 ∧ p.2 ≠ 0) ∧
    (∀ v ∈ cluster, ∃ p ∈ entries, p.1 = v.toNat)

/-- The max-cluster fold of `get_crater_info` (crater-analysis, lines
157–163): keep the first entry whose count strictly exceeds the running
maximum, starting from `(0, u64::MIN)`. -/
def maxClusterFold (entries : List (Nat × Nat)) : Nat × Nat :=
  entries.foldl
    (fun acc p => if p.2 > acc.2 then (p.1, p.2) else acc) (0, 0)

/-! ### Row-write lemmas -/

theorem rowWrites_mem {count i : Nat} {vals : List Int} {p : Nat × Int} :
    p ∈ rowWrites count i vals ↔
      ∃ j v, p = (count * j + i, v) ∧ vals[j]? = some v := by
  rw [rowWrites, List.mem_map]
  constructor
  · rintro ⟨⟨j, v⟩, hmem, rfl⟩
    exact ⟨j, v, rfl, (List.mk_mem_enum_iff_getElem?).mp hmem⟩
  · rintro ⟨j, v, rfl, hget⟩
    exact ⟨(j, v), (List.mk_mem_enum_iff_getElem?).mpr hget, rfl⟩

theorem rowWrites_fst_nodup {count i : Nat} (hc : 0 < count)
    (vals : List Int) : ((rowWrites count i vals).map Prod.fst).Nodup := by
  rw [rowWrites, List.map_map]
  have : (Prod.fst ∘ fun p : Nat × Int => (count * p.1 + i, p.2)) =
      (fun p : Nat × Int => count * p.1 + i) := rfl
  rw [this]
  have h2 : (fun p : Nat × Int => count * p.1 + i) =
      (fun j : Nat => count * j + i) ∘ Prod.fst := rfl
  rw [h2, ← List.map_map, List.enum_map_fst]
  refine List.Nodup.map ?_ (List.nodup_range _)
  intro a b hab
  simp only at hab
  have := Nat.eq_of_mul_eq_mul_left hc (by omega : count * a = count * b)
  omega

theorem writeRows_length (count : Nat) (rows : List (List Int)) :
    ∀ buf i0, (writeRows count buf i0 rows).length = buf.length := by
  induction rows with
  | nil => intro buf i0; rfl
  | cons r rest ih =>
    intro buf i0
    rw [writeRows, ih, setMany_length]

theorem offset_inj {count j j' i i' : Nat} (hi : i < count)
    (hi' : i' < count) (h : count * j + i = count * j' + i') :
    j = j' ∧ i = i' := by
  rcases Nat.lt_trichotomy j j' with hlt | heq | hgt
  · have hm : count * (j + 1) ≤ count * j' := Nat.mul_le_mul_left count hlt
    rw [Nat.mul_succ] at hm; omega
  · subst heq; omega
  · have hm : count * (j' + 1) ≤ count * j := Nat.mul_le_mul_left count hgt
    rw [Nat.mul_succ] at hm; omega

theorem writeRows_getD_outside {count : Nat} (rows : List (List Int)) :
    ∀ buf i0 j i, i < count → i0 + rows.length ≤ count →
      (i < i0 ∨ i0 + rows.length ≤ i) →
      (writeRows count buf i0 rows).getD (count * j + i) 0 =
        buf.getD (count * j + i) 0 := by
  induction rows with
  | nil => intro buf i0 j i _ _ _; rfl
  | cons r rest ih =>
    intro buf i0 j i hi hbnd hout
    simp only [List.length_cons] at hbnd hout
    rw [writeRows, ih _ _ _ _ hi (by omega) (by omega)]
    refine setMany_getD_of_not_mem ?_
    intro p hp hpk
    obtain ⟨j', v, rfl, _⟩ := rowWrites_mem.mp hp
    simp only at hpk
    obtain ⟨-, hii⟩ := offset_inj (by omega) hi hpk
    omega

theorem writeRows_getD_inside {count : Nat} (rows : List (List Int)) :
    ∀ buf i0 j i, i < count → i0 + rows.length ≤ count → i0 ≤ i →
      i - i0 < rows.length → count * j + i < buf.length →
      (writeRows count buf i0 rows).getD (count * j + i) 0 =
        (match (rows.getD (i - i0) [])[j]? with
          | some v => v
          | none => buf.getD (count * j + i) 0) := by
  induction rows with
  | nil => intro buf i0 j i _ _ _ h _; simp at h
  | cons r rest ih =>
    intro buf i0 j i hi hbnd hin hlt hbuf
    simp only [List.length_cons] at hbnd hlt
    rw [writeRows]
    by_cases hii : i = i0
    · subst hii
      rw [writeRows_getD_outside rest _ _ _ _ hi (by omega) (by omega)]
      simp only [Nat.sub_self, List.getD_cons_zero]
      cases hget : r[j]? with
      | none =>
        refine setMany_getD_of_not_mem ?_
        intro p hp hpk
        obtain ⟨j', v, rfl, hv⟩ := rowWrites_mem.mp hp
        simp only at hpk
        obtain ⟨hjj, -⟩ := offset_inj hi hi hpk
        rw [hjj, hget] at hv
        exact Option.noConfusion hv
      | some v =>
        refine setMany_getD_of_mem (rowWrites_fst_nodup (by omega) r) ?_ hbuf
        exact rowWrites_mem.mpr ⟨j, v, rfl, hget⟩
    · rw [ih _ _ _ _ hi (by omega) (by omega) (by omega)
        (by rw [setMany_length]; exact hbuf)]
      have hsub : i - i0 = (i - (i0 + 1)) + 1 := by omega
      rw [hsub, List.getD_cons_succ]
      have hunch : (setMany buf (rowWrites count i0 r)).getD (count * j + i) 0 =
          buf.getD (count * j + i) 0 := by
        refine setMany_getD_of_not_mem ?_
        intro p hp hpk
        obtain ⟨j', v, rfl, _⟩ := rowWrites_mem.mp hp
        simp only at hpk
        obtain ⟨-, hii'⟩ := offset_inj (by omega) hi hpk
        omega
      rw [hunch]

/-! ### Block-loop step lemmas -/

theorem readLoop_nil (ts : List Nat) (acc : List (Nat × DumpSnapshot)) :
    DumpFile.readLoop [] ts acc = Except.ok acc := rfl

theorem readLoopAux_step_skip (fuel : Nat) (l1 l3 : Str) (rest : List Str)
    (ts : List Nat) (acc : List (Nat × DumpSnapshot)) (t n : Nat)
    (hpt : parseNat l1 = some t) (hpn : parseNat l3 = some n)
    (hts : ts ≠ []) (hmax : ¬ t > ts.getLastD 0) (hnot : t ∉ ts) :
    DumpFile.readLoopAux (fuel + 1)
        (HEADER_TIMESTEP :: l1 :: HEADER_NUM_OF_ATOMS :: l3 :: rest) ts acc =
      DumpFile.readLoopAux fuel (rest.drop (n + 5)) ts acc := by
  simp only [DumpFile.readLoopAux, hpt, hpn]
  rw [if_neg (by simp), if_neg (by simp)]
  rw [if_neg (by exact fun h => hmax h.2), if_pos ⟨hts, hnot⟩]

theorem readLoopAux_step_mat (fuel : Nat) (l1 l3 : Str) (rest : List Str)
    (ts : List Nat) (acc : List (Nat × DumpSnapshot)) (t n : Nat)
    (snap : DumpSnapshot)
    (hpt : parseNat l1 = some t) (hpn : parseNat l3 = some n)
    (hsel : ts = [] ∨ (¬ t > ts.getLastD 0 ∧ t ∈ ts))
    (hdup : ∀ p ∈ acc, p.1 ≠ t)
    (hread : DumpSnapshot.read rest t n = Except.ok snap) :
    DumpFile.readLoopAux (fuel + 1)
        (HEADER_TIMESTEP :: l1 :: HEADER_NUM_OF_ATOMS :: l3 :: rest) ts acc =
      DumpFile.readLoopAux fuel (rest.drop (5 + n)) ts
        (acc ++ [(t, snap)]) := by
  simp only [DumpFile.readLoopAux, hpt, hpn]
  rw [if_neg (by simp), if_neg (by simp)]
  have hnd : ¬ (acc.any (fun p => p.1 = t)) = true := by
    simp only [List.any_eq_true, not_exists]
    intro p
    intro hcon
    rcases hcon with ⟨hp, he⟩
    exact hdup p hp (by simpa using he)
  rcases hsel with hsel | hsel
  · subst hsel
    rw [if_neg (by simp), if_neg (by simp), if_neg hnd, hread]
  · rw [if_neg (by exact fun h => hsel.1 h.2),
      if_neg (by exact fun h => h.2 hsel.2), if_neg hnd, hread]

/-! ### Snapshot-read success characterization -/

theorem exceptBind_ok {E A B : Type} (a : A) (k : A → Except E B) :
    (Except.ok a >>= k : Except E B) = k a := rfl

theorem exceptPure_eq {E A : Type} (a : A) :
    (pure a : Except E A) = Except.ok a := rfl

theorem buildKeys_go (tokens : List Str) :
    ∀ acc, tokens.Nodup → (∀ t ∈ tokens, t ∉ acc) →
      tokens.foldlM
        (fun acc t =>
          if t ∈ acc then Except.error DumpParsingError.DuplicateAtomKeys
          else Except.ok (acc ++ [t])) acc =
        Except.ok (acc ++ tokens) := by
  induction tokens with
  | nil => intro acc _ _; simp only [List.foldlM_nil, List.append_nil]; rfl
  | cons t rest ih =>
    intro acc hnd hdisj
    rw [List.nodup_cons] at hnd
    rw [List.foldlM_cons, if_neg (hdisj t (by simp))]
    have hres := ih (acc ++ [t]) hnd.2 (fun u hu => by
      simp only [List.mem_append, List.mem_singleton]
      rintro (h | h)
      · exact hdisj u (by simp [hu]) h
      · exact hnd.1 (h ▸ hu))
    rw [exceptBind_ok, hres]
    simp

theorem buildKeys_of_nodup {tokens : List Str} (h : tokens.Nodup) :
    buildKeys tokens = Except.ok tokens := by
  have := buildKeys_go tokens [] h (by simp)
  simpa [buildKeys] using this

theorem mapM_ok_of_forall {α β : Type} (l : List α)
    (f : α → Except DumpParsingError β) (g : α → β)
    (h : ∀ a ∈ l, f a = Except.ok (g a)) : l.mapM f = Except.ok (l.map g) := by
  induction l with
  | nil => rfl
  | cons a l ih =>
    rw [List.mapM_cons, h a (by simp), exceptBind_ok,
      ih (fun b hb => h b (by simp [hb]))]
    rfl

theorem readRows_ok (lines : List Str) (n : Nat) (h : n ≤ lines.length) :
    readRows lines n = Except.ok ((List.range n).map
      (fun i => (splitWS (lines.getD i [])).filterMap parseInt)) := by
  rw [readRows]
  refine mapM_ok_of_forall _ _ _ ?_
  intro i hi
  rw [List.mem_range] at hi
  have hlt : i < lines.length := by omega
  rw [List.getElem?_eq_getElem hlt]
  rw [List.getD_eq_getElem?_getD, List.getElem?_eq_getElem hlt]
  rfl

theorem map_eq_range_map {α : Type} (rows : List α) (dflt : α)
    (f : α → List Int) :
    rows.map f = (List.range rows.length).map (fun i => f (rows.getD i dflt)) := by
  refine List.ext_getElem (by simp) ?_
  intro i h1 h2
  simp only [List.getElem_map, List.getElem_range]
  congr 1
  rw [List.getD_eq_getElem?_getD,
    List.getElem?_eq_getElem (by simpa using h1)]
  rfl

theorem DumpSnapshot.read_ok (lbox b1 b2 b3 lkeys : Str)
    (rows extra : List Str) (step n : Nat) (keys : List Str)
    (bnds : List (Int × Int))
    (hlb : HEADER_SYM_BOX.length ≤ lbox.length)
    (hlk : HEADER_ATOMS.length ≤ lkeys.length)
    (hrows : rows.length = n)
    (hkeys : buildKeys (splitWS (lkeys.drop HEADER_ATOMS.length)) =
      Except.ok keys)
    (hbnds : readBorders [b1, b2, b3] = bnds)
    (hb3 : bnds.length = 3) :
    DumpSnapshot.read (lbox :: b1 :: b2 :: b3 :: lkeys :: (rows ++ extra))
        step n =
      Except.ok
        { step := step
          atoms_count := n
          sym_box := { boundaries := (lbox.drop HEADER_SYM_BOX.length).drop 1
                       bounds := bnds }
          keys := keys
          atoms := writeRows n (List.replicate (n * keys.length) 0) 0
            (rows.map (fun l => (splitWS l).filterMap parseInt)) } := by
  rw [DumpSnapshot.read]
  have h0 : (lbox :: b1 :: b2 :: b3 :: lkeys :: (rows ++ extra))[0]? =
      some lbox := by simp
  have h4 : (lbox :: b1 :: b2 :: b3 :: lkeys :: (rows ++ extra))[4]? =
      some lkeys := by simp
  have hdrop1 : (lbox :: b1 :: b2 :: b3 :: lkeys :: (rows ++ extra)).drop 1 =
      b1 :: b2 :: b3 :: lkeys :: (rows ++ extra) := rfl
  have hborders :
      readBorders ((lbox :: b1 :: b2 :: b3 :: lkeys :: (rows ++ extra)).drop 1)
        = bnds := by
    rw [hdrop1, ← hbnds, readBorders, readBorders]
    rfl
  have hdrop5 : (lbox :: b1 :: b2 :: b3 :: lkeys :: (rows ++ extra)).drop 5 =
      rows ++ extra := rfl
  have hlen : n ≤ (rows ++ extra).length := by
    rw [List.length_append]; omega
  simp only [h0, h4, splitAtChecked, if_pos hlb, if_pos hlk, exceptBind_ok]
  simp only [hborders, hb3, exceptBind_ok]
  rw [if_neg (by omega)]
  simp only [hkeys, exceptBind_ok]
  rw [hdrop5, readRows_ok _ _ hlen]
  simp only [exceptBind_ok]
  refine congrArg Except.ok ?_
  congr 1
  rw [show (DumpSnapshot.new keys step n
      { boundaries := (lbox.drop HEADER_SYM_BOX.length).drop 1
        bounds := bnds }).atoms = List.replicate (n * keys.length) 0 from rfl]
  congr 1
  rw [map_eq_range_map rows [] (fun l => (splitWS l).filterMap parseInt), hrows]
  refine List.map_congr_left ?_
  intro i hi
  rw [List.mem_range] at hi
  congr 2
  rw [List.getD_eq_getElem?_getD, List.getD_eq_getElem?_getD,
    List.getElem?_append_left (by omega)]

/-! ### Write→read round trip -/

/-- Well-formedness of a snapshot store as the parser itself establishes
it: at least one property, distinct whitespace-free key names, exactly
three box-bounds pairs, and a full `atoms_count * keys` buffer. -/
def WFSnapshot (s : DumpSnapshot) : Prop :=
  s.keys ≠ [] ∧ s.keys.Nodup ∧ (∀ k ∈ s.keys, IsTok k) ∧
    s.sym_box.bounds.length = 3 ∧
    s.atoms.length = s.atoms_count * s.keys.length

theorem readLoopAux_nil (f : Nat) (ts : List Nat)
    (acc : List (Nat × DumpSnapshot)) :
    DumpFile.readLoopAux f [] ts acc = Except.ok acc := by
  cases f <;> rfl

theorem parseBoundsLine_printed (lo hi : Int) :
    parseBoundsLine (printInt lo ++ ' ' :: printInt hi) = (some lo, some hi) := by
  rw [parseBoundsLine]
  have hsp : splitWS (printInt lo ++ ' ' :: printInt hi) =
      [printInt lo, printInt hi] := by
    rw [splitWS_tok_append (printInt lo) (printInt_isTok lo),
      splitWS_tok _ (printInt_isTok hi)]
  rw [hsp]
  simp [parseInt_printInt]

theorem readBorders_printed (bnds : List (Int × Int)) (h3 : bnds.length = 3) :
    readBorders (bnds.map (fun p => printInt p.1 ++ ' ' :: printInt p.2)) =
      bnds := by
  match bnds, h3 with
  | [p, q, r], _ =>
    show readBorders [printInt p.1 ++ ' ' :: printInt p.2,
      printInt q.1 ++ ' ' :: printInt q.2,
      printInt r.1 ++ ' ' :: printInt r.2] = [p, q, r]
    rw [readBorders]
    simp [parseBoundsLine_printed]

theorem filterMap_parseInt_printed (vs : List Int) :
    (vs.map printInt).filterMap parseInt = vs := by
  induction vs with
  | nil => rfl
  | cons v vs ih => simp [parseInt_printInt, ih]

theorem writeRows_full (count K : Nat) (buf : List Int)
    (hlen : buf.length = count * K) :
    writeRows count (List.replicate (count * K) 0) 0
      ((List.range count).map (fun i =>
        (List.range K).map (fun j => buf.getD (count * j + i) 0))) = buf := by
  refine List.ext_getElem ?_ ?_
  · rw [writeRows_length, List.length_replicate, hlen]
  · intro idx h1 h2
    have hcount : 0 < count := by
      rcases Nat.eq_zero_or_pos count with hc | hc
      · rw [hlen, hc, Nat.zero_mul] at h2; omega
      · exact hc
    have hidx : idx < count * K := by rw [← hlen]; exact h2
    have hj : idx / count < K := by
      rw [Nat.div_lt_iff_lt_mul hcount, Nat.mul_comm]
      exact hidx
    have hdecomp : count * (idx / count) + idx % count = idx := by
      have := Nat.div_add_mod idx count
      omega
    have hi : idx % count < count := Nat.mod_lt _ hcount
    have hrowslen : ((List.range count).map (fun i =>
        (List.range K).map (fun j => buf.getD (count * j + i) 0))).length =
        count := by simp
    have hins := writeRows_getD_inside
      ((List.range count).map (fun i =>
        (List.range K).map (fun j => buf.getD (count * j + i) 0)))
      (List.replicate (count * K) 0) 0 (idx / count) (idx % count)
      hi (by rw [hrowslen]; omega) (by omega) (by rw [hrowslen]; omega)
      (by rw [List.length_replicate, hdecomp]; omega)
    rw [hdecomp] at hins
    have hrow : ((List.range count).map (fun i =>
        (List.range K).map (fun j => buf.getD (count * j + i) 0))).getD
        (idx % count - 0) [] =
        (List.range K).map (fun j => buf.getD (count * j + idx % count) 0) := by
      rw [Nat.sub_zero, List.getD_eq_getElem?_getD,
        List.getElem?_map, List.getElem?_range hi]
      rfl
    rw [hrow] at hins
    have hcell : ((List.range K).map
        (fun j => buf.getD (count * j + idx % count) 0))[idx / count]? =
        some (buf.getD idx 0) := by
      rw [List.getElem?_map, List.getElem?_range hj]
      simp only [Option.map_some']
      rw [hdecomp]
    rw [hcell] at hins
    have hgl : (writeRows count (List.replicate (count * K) 0) 0
        ((List.range count).map (fun i =>
          (List.range K).map (fun j => buf.getD (count * j + i) 0)))).getD
        idx 0 = buf.getD idx 0 := hins
    rw [List.getD_eq_getElem?_getD, List.getD_eq_getElem?_getD,
      List.getElem?_eq_getElem h1, List.getElem?_eq_getElem h2] at hgl
    exact hgl

theorem rowLine_parse (s : DumpSnapshot) (i : Nat) :
    (splitWS (joinTokens ((List.range s.keys.length).map
        (fun j => printInt (s.get_atom_value j i))))).filterMap parseInt =
      (List.range s.keys.length).map (fun j => s.get_atom_value j i) := by
  rw [splitWS_joinTokens _ (fun t ht => by
    obtain ⟨j, -, rfl⟩ := List.mem_map.mp ht
    exact printInt_isTok _)]
  have hmm : (List.range s.keys.length).map
      (fun j => printInt (s.get_atom_value j i)) =
      ((List.range s.keys.length).map
        (fun j => s.get_atom_value j i)).map printInt := by
    rw [List.map_map]; rfl
  rw [hmm, filterMap_parseInt_printed]

theorem write_read_roundtrip (s : DumpSnapshot) (h : WFSnapshot s) :
    DumpFile.read s.write [] = Except.ok ⟨[(s.step, s)]⟩ := by
  obtain ⟨hne, hnd, htok, hb3, hbuf⟩ := h
  obtain ⟨p, q, r, hbq⟩ := List.length_eq_three.mp hb3
  have hkeysline : buildKeys (splitWS ((HEADER_ATOMS ++
      ' ' :: joinTokens s.keys).drop HEADER_ATOMS.length)) =
      Except.ok s.keys := by
    rw [List.drop_left, splitWS_ws_cons (by decide),
      splitWS_joinTokens _ htok]
    exact buildKeys_of_nodup hnd
  have hbox : readBorders
      [printInt p.1 ++ ' ' :: printInt p.2,
       printInt q.1 ++ ' ' :: printInt q.2,
       printInt r.1 ++ ' ' :: printInt r.2] = [p, q, r] := by
    have := readBorders_printed [p, q, r] rfl
    simpa using this
  have hread := DumpSnapshot.read_ok
    (HEADER_SYM_BOX ++ ' ' :: s.sym_box.boundaries)
    (printInt p.1 ++ ' ' :: printInt p.2)
    (printInt q.1 ++ ' ' :: printInt q.2)
    (printInt r.1 ++ ' ' :: printInt r.2)
    (HEADER_ATOMS ++ ' ' :: joinTokens s.keys)
    ((List.range s.atoms_count).map (fun i =>
      joinTokens ((List.range s.keys.length).map
        (fun j => printInt (s.get_atom_value j i)))))
    [] s.step s.atoms_count s.keys [p, q, r]
    (by simp) (by simp) (by simp) hkeysline hbox rfl
  rw [List.append_nil] at hread
  have hsnap :
      ({ step := s.step
         atoms_count := s.atoms_count
         sym_box :=
           { boundaries := ((HEADER_SYM_BOX ++
               ' ' :: s.sym_box.boundaries).drop HEADER_SYM_BOX.length).drop 1
             bounds := [p, q, r] }
         keys := s.keys
         atoms := writeRows s.atoms_count
           (List.replicate (s.atoms_count * s.keys.length) 0) 0
           (((List.range s.atoms_count).map (fun i =>
             joinTokens ((List.range s.keys.length).map
               (fun j => printInt (s.get_atom_value j i))))).map
              (fun l => (splitWS l).filterMap parseInt)) } : DumpSnapshot) =
      s := by
    have hbd : ((HEADER_SYM_BOX ++
        ' ' :: s.sym_box.boundaries).drop HEADER_SYM_BOX.length).drop 1 =
        s.sym_box.boundaries := by
      rw [List.drop_left]
      rfl
    have hrows : (((List.range s.atoms_count).map (fun i =>
        joinTokens ((List.range s.keys.length).map
          (fun j => printInt (s.get_atom_value j i))))).map
         (fun l => (splitWS l).filterMap parseInt)) =
        (List.range s.atoms_count).map (fun i =>
          (List.range s.keys.length).map
            (fun j => s.atoms.getD (s.atoms_count * j + i) 0)) := by
      rw [List.map_map]
      refine List.map_congr_left ?_
      intro i _
      exact rowLine_parse s i
    rw [hbd, hrows, writeRows_full _ _ _ hbuf, ← hbq]
  rw [hsnap] at hread
  rw [DumpFile.read]
  have hsort : sortNat [] = [] := rfl
  rw [hsort, DumpSnapshot.write, hbq]
  simp only [List.map_cons, List.map_nil, List.cons_append, List.nil_append]
  rw [DumpFile.readLoop]
  rw [readLoopAux_step_mat _ _ _ _ _ _ s.step s.atoms_count s
    (parseNat_printNat s.step) (parseNat_printNat s.atoms_count)
    (Or.inl rfl) (by simp) hread]
  have hdropnil : ((HEADER_SYM_BOX ++ ' ' :: s.sym_box.boundaries) ::
      (printInt p.1 ++ ' ' :: printInt p.2) ::
      (printInt q.1 ++ ' ' :: printInt q.2) ::
      (printInt r.1 ++ ' ' :: printInt r.2) ::
      (HEADER_ATOMS ++ ' ' :: joinTokens s.keys) ::
      (List.range s.atoms_count).map (fun i =>
        joinTokens ((List.range s.keys.length).map
          (fun j => printInt (s.get_atom_value j i))))).drop
        (5 + s.atoms_count) = [] := by
    refine List.drop_eq_nil_of_le ?_
    simp only [List.length_cons, List.length_map, List.length_range]
    omega
  rw [hdropnil, readLoopAux_nil]
  rfl

/-! ### Flood-fill correctness -/

/-- Row `j` is marked visited (out-of-range defaults to `true`, and the
adjacency lists used by the engine only produce in-range rows). -/
def vis (v : List Bool) (j : Nat) : Prop := v.getD j true = true

instance (v : List Bool) (j : Nat) : Decidable (vis v j) := by
  rw [vis]; infer_instance

/-- Count of unvisited rows. -/
def unvis (v : List Bool) : Nat := v.countP (fun b => !b)

theorem vis_set_iff (v : List Bool) (a j : Nat) :
    vis (v.set a true) j ↔ vis v j ∨ j = a := by
  by_cases hja : j = a
  · subst hja
    by_cases hj : j < v.length
    · simp [vis, List.getD_eq_getElem?_getD, List.getElem?_set_self',
        List.getElem?_eq_getElem hj]
    · rw [vis, vis, List.getD_eq_getElem?_getD, List.getD_eq_getElem?_getD,
        List.getElem?_eq_none (by rw [List.length_set]; omega),
        List.getElem?_eq_none (by omega)]
      simp
  · rw [vis, vis, List.getD_eq_getElem?_getD, List.getD_eq_getElem?_getD,
      List.getElem?_set_ne (by omega)]
    simp [hja]

theorem vis_markAll_iff (fresh : List Nat) :
    ∀ v j, vis (markAll v fresh) j ↔ vis v j ∨ j ∈ fresh := by
  induction fresh with
  | nil => intro v j; simp [markAll]
  | cons a f ih =>
    intro v j
    show vis (markAll (v.set a true) f) j ↔ _
    rw [ih, vis_set_iff]
    constructor
    · rintro ((h | h) | h)
      · exact Or.inl h
      · exact Or.inr (by simp [h])
      · exact Or.inr (by simp [h])
    · rintro (h | h)
      · exact Or.inl (Or.inl h)
      · rcases List.mem_cons.mp h with h | h
        · exact Or.inl (Or.inr h)
        · exact Or.inr h

theorem markAll_length (fresh : List Nat) :
    ∀ v, (markAll v fresh).length = v.length := by
  induction fresh with
  | nil => intro v; rfl
  | cons a f ih =>
    intro v
    show (markAll (v.set a true) f).length = _
    rw [ih, List.length_set]

theorem unvis_set {v : List Bool} {a : Nat} (h : ¬ vis v a) :
    unvis (v.set a true) + 1 = unvis v := by
  rw [vis, List.getD_eq_getElem?_getD] at h
  have ha : a < v.length := by
    by_contra hc
    rw [List.getElem?_eq_none (by omega)] at h
    simp at h
  rw [List.getElem?_eq_getElem ha] at h
  simp only [Option.getD_some] at h
  induction v generalizing a with
  | nil => simp at ha
  | cons b w ih =>
    cases a with
    | zero =>
      simp only [List.getElem_cons_zero] at h
      rw [List.set_cons_zero]
      rw [unvis, unvis, List.countP_cons, List.countP_cons]
      simp [h]
    | succ a =>
      simp only [List.getElem_cons_succ] at h
      rw [List.set_cons_succ]
      rw [unvis, unvis, List.countP_cons, List.countP_cons]
      have := ih (a := a) (by simpa using ha) h
      rw [unvis, unvis] at this
      omega

theorem unvis_markAll {fresh : List Nat} :
    ∀ v, fresh.Nodup → (∀ j ∈ fresh, ¬ vis v j) →
      unvis (markAll v fresh) + fresh.length = unvis v := by
  induction fresh with
  | nil => intro v _ _; rfl
  | cons a f ih =>
    intro v hnd hun
    rw [List.nodup_cons] at hnd
    show unvis (markAll (v.set a true) f) + (f.length + 1) = unvis v
    have hstep := unvis_set (hun a (by simp))
    have hrec := ih (v.set a true) hnd.2 (fun j hj => by
      rw [vis_set_iff]
      rintro (h | h)
      · exact hun j (by simp [hj]) h
      · exact hnd.1 (h ▸ hj))
    omega

/-- Reachability through the adjacency-list graph. -/
def ReachAdj (adj : Nat → List Nat) : Nat → Nat → Prop :=
  Relation.ReflTransGen (fun a b => b ∈ adj a)

theorem floodAux_spec (adj : Nat → List Nat) (n : Nat)
    (hnd : ∀ i, (adj i).Nodup) :
    ∀ fuel v stack cluster,
      v.length = n →
      unvis v + stack.length < fuel →
      (∀ i ∈ stack, vis v i) →
      ((floodAux adj fuel v stack cluster).2.length = n) ∧
      (∀ j, vis v j → vis (floodAux adj fuel v stack cluster).2 j) ∧
      (∀ j, j ∈ (floodAux adj fuel v stack cluster).1 ↔
        j ∈ cluster ∨ j ∈ stack ∨
          (vis (floodAux adj fuel v stack cluster).2 j ∧ ¬ vis v j)) ∧
      (∀ j, vis (floodAux adj fuel v stack cluster).2 j →
        vis v j ∨ ∃ s ∈ stack, ReachAdj adj s j) ∧
      ((∀ u, u < n → vis v u → u ∉ stack → ∀ w ∈ adj u, vis v w) →
        ∀ u, u < n → vis (floodAux adj fuel v stack cluster).2 u →
          ∀ w ∈ adj u, vis (floodAux adj fuel v stack cluster).2 w) := by
  intro fuel
  induction fuel with
  | zero => intro v stack cluster _ hf _; omega
  | succ fuel ih =>
    intro v stack cluster hlen hf hstack
    cases stack with
    | nil =>
      have hres : floodAux adj (fuel + 1) v [] cluster = (cluster, v) := rfl
      rw [hres]
      refine ⟨hlen, fun j h => h, ?_, fun j h => Or.inl h, ?_⟩
      · intro j
        simp
      · intro hcl u hu hvu w hw
        exact hcl u hu hvu (by simp) w hw
    | cons i rest =>
      have hfresh_mem : ∀ j,
          j ∈ (adj i).filter (fun j => !(v.getD j true)) ↔
            j ∈ adj i ∧ ¬ vis v j := by
        intro j
        rw [List.mem_filter, vis]
        simp
      have hfrnd : ((adj i).filter (fun j => !(v.getD j true))).Nodup :=
        (hnd i).filter _
      have hfrunvis : ∀ j ∈ (adj i).filter (fun j => !(v.getD j true)),
          ¬ vis v j := fun j hj => ((hfresh_mem j).mp hj).2
      have hunvis := unvis_markAll (v := v) hfrnd hfrunvis
      have hres : floodAux adj (fuel + 1) v (i :: rest) cluster =
          floodAux adj fuel
            (markAll v ((adj i).filter (fun j => !(v.getD j true))))
            (((adj i).filter (fun j => !(v.getD j true))) ++ rest)
            (cluster.insert i) := rfl
      have hlen' : (markAll v ((adj i).filter (fun j => !(v.getD j true)))).length
          = n := by rw [markAll_length]; exact hlen
      have hf' : unvis (markAll v ((adj i).filter (fun j => !(v.getD j true)))) +
          (((adj i).filter (fun j => !(v.getD j true))) ++ rest).length < fuel := by
        rw [List.length_append]
        simp only [List.length_cons] at hf
        omega
      have hstack' : ∀ s ∈ ((adj i).filter (fun j => !(v.getD j true))) ++ rest,
          vis (markAll v ((adj i).filter (fun j => !(v.getD j true)))) s := by
        intro s hs
        rw [vis_markAll_iff]
        rcases List.mem_append.mp hs with hs | hs
        · exact Or.inr hs
        · exact Or.inl (hstack s (by simp [hs]))
      obtain ⟨ih1, ih2, ih3, ih4, ih5⟩ :=
        ih (markAll v ((adj i).filter (fun j => !(v.getD j true))))
          (((adj i).filter (fun j => !(v.getD j true))) ++ rest)
          (cluster.insert i) hlen' hf' hstack'
      rw [hres]
      have hmono : ∀ j, vis v j →
          vis (markAll v ((adj i).filter (fun j => !(v.getD j true)))) j := by
        intro j hj
        rw [vis_markAll_iff]
        exact Or.inl hj
      refine ⟨ih1, fun j hj => ih2 j (hmono j hj), ?_, ?_, ?_⟩
      · intro j
        rw [ih3 j]
        constructor
        · rintro (hj | hj | ⟨hj1, hj2⟩)
          · rcases List.mem_insert_iff.mp hj with hj | hj
            · exact Or.inr (Or.inl (by simp [hj]))
            · exact Or.inl hj
          · rcases List.mem_append.mp hj with hj | hj
            · refine Or.inr (Or.inr ⟨?_, hfrunvis j hj⟩)
              exact ih2 j (by rw [vis_markAll_iff]; exact Or.inr hj)
            · exact Or.inr (Or.inl (by simp [hj]))
          · refine Or.inr (Or.inr ⟨hj1, ?_⟩)
            intro hv
            exact hj2 (hmono j hv)
        · rintro (hj | hj | ⟨hj1, hj2⟩)
          · exact Or.inl (List.mem_insert_iff.mpr (Or.inr hj))
          · rcases List.mem_cons.mp hj with hj | hj
            · exact Or.inl (List.mem_insert_iff.mpr (Or.inl hj))
            · exact Or.inr (Or.inl (List.mem_append.mpr (Or.inr hj)))
          · by_cases hv' :
              vis (markAll v ((adj i).filter (fun j => !(v.getD j true)))) j
            · rw [vis_markAll_iff] at hv'
              rcases hv' with hv' | hv'
              · exact absurd hv' hj2
              · exact Or.inr (Or.inl (List.mem_append.mpr (Or.inl hv')))
            · exact Or.inr (Or.inr ⟨hj1, hv'⟩)
      · intro j hj
        rcases ih4 j hj with hj' | ⟨s, hs, hreach⟩
        · rw [vis_markAll_iff] at hj'
          rcases hj' with hj' | hj'
          · exact Or.inl hj'
          · refine Or.inr ⟨i, by simp, ?_⟩
            exact Relation.ReflTransGen.single ((hfresh_mem j).mp hj').1
        · rcases List.mem_append.mp hs with hs | hs
          · refine Or.inr ⟨i, by simp, ?_⟩
            exact Relation.ReflTransGen.head ((hfresh_mem s).mp hs).1 hreach
          · exact Or.inr ⟨s, by simp [hs], hreach⟩
      · intro hcl
        refine ih5 ?_
        intro u hu hvu hus w hw
        rw [vis_markAll_iff] at hvu
        rcases hvu with hvu | hvu
        · by_cases hui : u = i
          · subst hui
            rw [vis_markAll_iff]
            by_cases hvw : vis v w
            · exact Or.inl hvw
            · exact Or.inr ((hfresh_mem w).mpr ⟨hw, hvw⟩)
          · have := hcl u hu hvu (by
              intro hmem
              rcases List.mem_cons.mp hmem with h | h
              · exact hui h
              · exact hus (List.mem_append.mpr (Or.inr h))) w hw
            rw [vis_markAll_iff]
            exact Or.inl this
        · exact absurd (List.mem_append.mpr (Or.inl hvu)) hus

theorem flood_seed (adj : Nat → List Nat) (n : Nat)
    (hnd : ∀ i, (adj i).Nodup)
    (hsym : ∀ a b, a < n → b ∈ adj a → a ∈ adj b)
    (hrange : ∀ i j, j ∈ adj i → j < n)
    (v : List Bool) (s : Nat) (hs : s < n) (hlen : v.length = n)
    (hvs : ¬ vis v s)
    (hclosed : ∀ u, u < n → vis v u → ∀ w ∈ adj u, vis v w) :
    (∀ j, j ∈ (floodAux adj (n + 1) (v.set s true) [s] []).1 ↔
      ReachAdj adj s j) ∧
    (floodAux adj (n + 1) (v.set s true) [s] []).2.length = n ∧
    (∀ j, vis (floodAux adj (n + 1) (v.set s true) [s] []).2 j ↔
      vis v j ∨ j ∈ (floodAux adj (n + 1) (v.set s true) [s] []).1) ∧
    (∀ u, u < n → vis (floodAux adj (n + 1) (v.set s true) [s] []).2 u →
      ∀ w ∈ adj u, vis (floodAux adj (n + 1) (v.set s true) [s] []).2 w) := by
  have hcount : unvis v ≤ n := by
    rw [← hlen]; exact List.countP_le_length _
  have hfuel : unvis (v.set s true) + ([s] : List Nat).length < n + 1 := by
    have := unvis_set hvs
    simp only [List.length_singleton]
    omega
  have hstack : ∀ i ∈ ([s] : List Nat), vis (v.set s true) i := by
    intro i hi
    rw [List.mem_singleton] at hi
    subst hi
    rw [vis_set_iff]
    exact Or.inr rfl
  obtain ⟨h1, h2, h3, h4, h5⟩ := floodAux_spec adj n hnd (n + 1)
    (v.set s true) [s] [] (by rw [List.length_set]; exact hlen) hfuel hstack
  have hclosed' : ∀ u, u < n → vis (v.set s true) u → u ∉ ([s] : List Nat) →
      ∀ w ∈ adj u, vis (v.set s true) w := by
    intro u hu hvu hus w hw
    rw [vis_set_iff] at hvu
    rcases hvu with hvu | hvu
    · rw [vis_set_iff]
      exact Or.inl (hclosed u hu hvu w hw)
    · exact absurd (by simp [hvu]) hus
  have h5' := h5 hclosed'
  have hCmem : ∀ j, j ∈ (floodAux adj (n + 1) (v.set s true) [s] []).1 ↔
      ReachAdj adj s j := by
    intro j
    constructor
    · intro hj
      rw [h3 j] at hj
      rcases hj with hj | hj | ⟨hj1, hj2⟩
      · simp at hj
      · rw [List.mem_singleton] at hj
        exact hj ▸ Relation.ReflTransGen.refl
      · rcases h4 j hj1 with hj' | ⟨t, ht, hreach⟩
        · exact absurd hj' hj2
        · rw [List.mem_singleton] at ht
          exact ht ▸ hreach
    · intro hreach
      induction hreach with
      | refl =>
        rw [h3 s]
        exact Or.inr (Or.inl (by simp))
      | tail hmid hstep ihc =>
        rename_i u w
        have hu_mem := ihc
        have hvisu : vis (floodAux adj (n + 1) (v.set s true) [s] []).2 u := by
          rw [h3 u] at hu_mem
          rcases hu_mem with h | h | ⟨h, -⟩
          · simp at h
          · rw [List.mem_singleton] at h
            subst h
            exact h2 u (by rw [vis_set_iff]; exact Or.inr rfl)
          · exact h
        have hun : u < n := by
          rw [h3 u] at hu_mem
          rcases hu_mem with h | h | ⟨-, h⟩
          · simp at h
          · rw [List.mem_singleton] at h
            omega
          · rw [vis, List.getD_eq_getElem?_getD] at h
            by_contra hc
            rw [List.getElem?_eq_none (by rw [List.length_set]; omega)] at h
            simp at h
        have hvisw := h5' u hun hvisu w hstep
        rw [h3 w]
        by_cases hvw : vis (v.set s true) w
        · rw [vis_set_iff] at hvw
          rcases hvw with hvw | hvw
          · exfalso
            have hwn : w < n := hrange u w hstep
            have hadj_w := hclosed w hwn hvw u (hsym u w hun hstep)
            rw [h3 u] at hu_mem
            rcases hu_mem with h | h | ⟨-, h⟩
            · simp at h
            · rw [List.mem_singleton] at h
              subst h
              exact hvs hadj_w
            · rw [vis_set_iff] at h
              exact h (Or.inl hadj_w)
          · exact Or.inr (Or.inl (by simp [hvw]))
        · exact Or.inr (Or.inr ⟨hvisw, hvw⟩)
  refine ⟨hCmem, h1, ?_, h5'⟩
  intro j
  constructor
  · intro hj
    rcases h4 j hj with hj' | ⟨t, ht, hreach⟩
    · rw [vis_set_iff] at hj'
      rcases hj' with hj' | hj'
      · exact Or.inl hj'
      · refine Or.inr ?_
        rw [hCmem]
        exact hj' ▸ Relation.ReflTransGen.refl
    · rw [List.mem_singleton] at ht
      refine Or.inr ?_
      rw [hCmem]
      exact ht ▸ hreach
  · rintro (hj | hj)
    · exact h2 j (by rw [vis_set_iff]; exact Or.inl hj)
    · rw [h3 j] at hj
      rcases hj with h | h | ⟨h, -⟩
      · simp at h
      · rw [List.mem_singleton] at h
        exact h2 j (by rw [vis_set_iff]; exact Or.inr h)
      · exact h

theorem clusterizeLoop_spec (adj : Nat → List Nat) (n : Nat)
    (hnd : ∀ i, (adj i).Nodup)
    (hsym : ∀ a b, a < n → b ∈ adj a → a ∈ adj b)
    (hrange : ∀ i j, j ∈ adj i → j < n) :
    ∀ is v comps,
      v.length = n →
      (∀ i ∈ is, i < n) →
      (∀ u, u < n → vis v u → ∀ w ∈ adj u, vis v w) →
      (∀ C ∈ comps, ∃ s, s < n ∧ ∀ j, (j ∈ C ↔ ReachAdj adj s j)) →
      (∀ u, u < n → (vis v u ↔ ∃ C ∈ comps, u ∈ C)) →
      (∀ C ∈ (clusterizeLoop adj n is v comps).1,
        ∃ s, s < n ∧ ∀ j, (j ∈ C ↔ ReachAdj adj s j)) ∧
      (∀ i ∈ is, ∃ C ∈ (clusterizeLoop adj n is v comps).1, i ∈ C) ∧
      (∀ C ∈ comps, C ∈ (clusterizeLoop adj n is v comps).1) := by
  intro is
  induction is with
  | nil =>
    intro v comps _ _ _ hclasses _
    exact ⟨hclasses, by simp, fun C hC => hC⟩
  | cons i is ih =>
    intro v comps hlen hin hclosed hclasses hcover
    by_cases hvi : vis v i
    · have hres : clusterizeLoop adj n (i :: is) v comps =
          clusterizeLoop adj n is v comps := by
        rw [clusterizeLoop, if_pos (by rw [vis] at hvi; exact hvi)]
      rw [hres]
      obtain ⟨c1, c2, c3⟩ := ih v comps hlen
        (fun j hj => hin j (by simp [hj])) hclosed hclasses hcover
      refine ⟨c1, ?_, c3⟩
      intro j hj
      rcases List.mem_cons.mp hj with hj | hj
      · subst hj
        obtain ⟨C, hC, hjC⟩ := (hcover j (hin j (by simp))).mp hvi
        exact ⟨C, c3 C hC, hjC⟩
      · exact c2 j hj
    · have hi : i < n := hin i (by simp)
      obtain ⟨f1, f2, f3, f4⟩ := flood_seed adj n hnd hsym hrange v i hi hlen
        hvi hclosed
      have hres : clusterizeLoop adj n (i :: is) v comps =
          clusterizeLoop adj n is
            (floodAux adj (n + 1) (v.set i true) [i] []).2
            (comps ++ [(floodAux adj (n + 1) (v.set i true) [i] []).1]) := by
        rw [clusterizeLoop, if_neg (by rw [vis] at hvi; simpa using hvi)]
      rw [hres]
      have hclasses' : ∀ C ∈ comps ++
          [(floodAux adj (n + 1) (v.set i true) [i] []).1],
          ∃ s, s < n ∧ ∀ j, (j ∈ C ↔ ReachAdj adj s j) := by
        intro C hC
        rcases List.mem_append.mp hC with hC | hC
        · exact hclasses C hC
        · rw [List.mem_singleton] at hC
          subst hC
          exact ⟨i, hi, f1⟩
      have hcover' : ∀ u, u < n →
          (vis (floodAux adj (n + 1) (v.set i true) [i] []).2 u ↔
            ∃ C ∈ comps ++ [(floodAux adj (n + 1) (v.set i true) [i] []).1],
              u ∈ C) := by
        intro u hu
        rw [f3 u]
        constructor
        · rintro (h | h)
          · obtain ⟨C, hC, huC⟩ := (hcover u hu).mp h
            exact ⟨C, List.mem_append.mpr (Or.inl hC), huC⟩
          · exact ⟨_, List.mem_append.mpr (Or.inr (by simp)), h⟩
        · rintro ⟨C, hC, huC⟩
          rcases List.mem_append.mp hC with hC | hC
          · exact Or.inl ((hcover u hu).mpr ⟨C, hC, huC⟩)
          · rw [List.mem_singleton] at hC
            exact Or.inr (hC ▸ huC)
      obtain ⟨c1, c2, c3⟩ := ih
        (floodAux adj (n + 1) (v.set i true) [i] []).2
        (comps ++ [(floodAux adj (n + 1) (v.set i true) [i] []).1])
        f2 (fun j hj => hin j (by simp [hj])) f4 hclasses' hcover'
      refine ⟨c1, ?_, fun C hC => c3 C (List.mem_append.mpr (Or.inl hC))⟩
      intro j hj
      rcases List.mem_cons.mp hj with hj | hj
      · subst hj
        refine ⟨(floodAux adj (n + 1) (v.set j true) [j] []).1,
          c3 _ (List.mem_append.mpr (Or.inr (by simp))), ?_⟩
        rw [f1 j]
        exact Relation.ReflTransGen.refl
      · exact c2 j hj

/-! ### The engine's adjacency in closed form -/

theorem enum_map_range {α : Type} (f : Nat → α) (n : Nat) :
    ((List.range n).map f).enum = (List.range n).map (fun k => (k, f k)) := by
  induction n with
  | zero => rfl
  | succ n ih =>
    rw [List.range_succ, List.map_append, List.enum_append, ih,
      List.map_append]
    congr 1
    simp [List.enumFrom]

theorem range_filter_eq_self (n j : Nat) (hj : j < n) :
    (List.range n).filter (fun k => decide (k = j)) = [j] := by
  induction n with
  | zero => omega
  | succ n ih =>
    rw [List.range_succ, List.filter_append]
    by_cases hjn : j < n
    · rw [ih hjn]
      have hlast : [n].filter (fun k => decide (k = j)) = [] := by
        simp only [List.filter_cons, List.filter_nil]
        rw [if_neg (by simp; omega)]
      rw [hlast]
      simp
    · have hj' : j = n := by omega
      subst hj'
      have hpre : (List.range j).filter (fun k => decide (k = j)) = [] := by
        rw [List.filter_eq_nil_iff]
        intro a ha
        rw [List.mem_range] at ha
        simp
        omega
      rw [hpre]
      simp

theorem atomsMap_self (f : Nat → XYZ) (hidx : ∀ k, (f k).index = k)
    (n j : Nat) (hj : j < n) :
    atomsMap ((List.range n).map f) (f j) = j := by
  rw [atomsMap, enum_map_range]
  have hfil : (List.range n).map (fun k => (k, f k)) =
      ((List.range n).map (fun k => (k, f k))) := rfl
  rw [List.filter_map]
  have hcongr : (List.range n).filter
      ((fun q : Nat × XYZ => decide (q.2 = f j)) ∘ (fun k => (k, f k))) =
      (List.range n).filter (fun k => decide (k = j)) := by
    refine List.filter_congr ?_
    intro k _
    simp only [Function.comp_apply, decide_eq_decide]
    constructor
    · intro h
      have := congrArg XYZ.index h
      rw [hidx, hidx] at this
      exact this
    · intro h
      rw [h]
  rw [hcongr, range_filter_eq_self n j hj]
  rfl

theorem neighborIdx_eq (f : Nat → XYZ) (hidx : ∀ k, (f k).index = k)
    (n : Nat) (cutoff : Int) (i : Nat) :
    neighborIdx ((List.range n).map f) cutoff i =
      (List.range n).filter (fun k => decide (distance_squared (f k)
        (((List.range n).map f).getD i ⟨0, 0, 0, 0⟩) ≤ cutoff * cutoff)) := by
  rw [neighborIdx, withinRadius, List.filter_map, List.map_map]
  refine ?_
  have : ((List.range n).filter ((fun p : XYZ => decide (distance_squared p
      (((List.range n).map f).getD i ⟨0, 0, 0, 0⟩) ≤ cutoff * cutoff)) ∘ f)).map
      ((atomsMap ((List.range n).map f)) ∘ f) =
      ((List.range n).filter ((fun p : XYZ => decide (distance_squared p
      (((List.range n).map f).getD i ⟨0, 0, 0, 0⟩) ≤ cutoff * cutoff)) ∘ f)).map
      id := by
    refine List.map_congr_left ?_
    intro k hk
    have hkn : k < n := by
      have := List.mem_range.mp (List.mem_of_mem_filter hk)
      exact this
    exact atomsMap_self f hidx n k hkn
  rw [this, List.map_id]
  rfl

theorem getD_map_range {α : Type} (f : Nat → α) (n i : Nat) (d : α)
    (hi : i < n) : ((List.range n).map f).getD i d = f i := by
  rw [List.getD_eq_getElem?_getD, List.getElem?_map, List.getElem?_range hi]
  rfl

theorem distance_squared_comm (a b : XYZ) :
    distance_squared a b = distance_squared b a := by
  rw [distance_squared, distance_squared]
  ring

/-! ### Labeling fold -/

theorem get_set_atom_same (s : DumpSnapshot) (j i : Nat) (v : Int)
    (h : s.atoms_count * j + i < s.atoms.length) :
    (s.set_atom_value j i v).get_atom_value j i = v := by
  rw [DumpSnapshot.set_atom_value, DumpSnapshot.get_atom_value]
  simp only [List.getD_eq_getElem?_getD]
  rw [List.getElem?_set_self' ]
  simp [h]

theorem get_set_atom_ne (s : DumpSnapshot) (j i j' i' : Nat) (v : Int)
    (h : s.atoms_count * j + i ≠ s.atoms_count * j' + i') :
    (s.set_atom_value j i v).get_atom_value j' i' =
      s.get_atom_value j' i' := by
  rw [DumpSnapshot.set_atom_value, DumpSnapshot.get_atom_value,
    DumpSnapshot.get_atom_value]
  simp only [List.getD_eq_getElem?_getD]
  rw [List.getElem?_set_ne h]

theorem set_atom_count (s : DumpSnapshot) (j i : Nat) (v : Int) :
    (s.set_atom_value j i v).atoms_count = s.atoms_count := rfl

theorem set_atom_length (s : DumpSnapshot) (j i : Nat) (v : Int) :
    (s.set_atom_value j i v).atoms.length = s.atoms.length := by
  rw [DumpSnapshot.set_atom_value]
  simp

theorem labelFold_spec (count K cj dj : Nat) (rep : Nat → Nat)
    (hcd : cj ≠ dj) (hcj : cj < K) (hdj : dj < K)
    (hrep : ∀ i, i < count → rep i < count) :
    ∀ (is : List Nat) (snap : DumpSnapshot),
      snap.atoms_count = count → snap.atoms.length = count * K →
      (∀ i ∈ is, i < count) → is.Nodup →
      (is.foldl (fun sn i =>
        sn.set_atom_value cj i (sn.get_atom_value dj (rep i))) snap).atoms_count
          = count ∧
      (∀ j r, j ≠ cj → r < count →
        (is.foldl (fun sn i =>
          sn.set_atom_value cj i (sn.get_atom_value dj (rep i)))
            snap).get_atom_value j r = snap.get_atom_value j r) ∧
      (∀ i ∈ is,
        (is.foldl (fun sn i =>
          sn.set_atom_value cj i (sn.get_atom_value dj (rep i)))
            snap).get_atom_value cj i = snap.get_atom_value dj (rep i)) ∧
      (∀ i, i < count → i ∉ is →
        (is.foldl (fun sn i =>
          sn.set_atom_value cj i (sn.get_atom_value dj (rep i)))
            snap).get_atom_value cj i = snap.get_atom_value cj i) := by
  intro is
  induction is with
  | nil =>
    intro snap h1 _ _ _
    exact ⟨h1, fun j r _ _ => rfl, by simp, fun i _ _ => rfl⟩
  | cons i rest ih =>
    intro snap hcount hlen hmem hnd
    rw [List.nodup_cons] at hnd
    have hi : i < count := hmem i (by simp)
    have hc1 : (snap.set_atom_value cj i
        (snap.get_atom_value dj (rep i))).atoms_count = count := by
      rw [set_atom_count]; exact hcount
    have hl1 : (snap.set_atom_value cj i
        (snap.get_atom_value dj (rep i))).atoms.length = count * K := by
      rw [set_atom_length]; exact hlen
    obtain ⟨c1, c2, c3, c4⟩ := ih
      (snap.set_atom_value cj i (snap.get_atom_value dj (rep i)))
      hc1 hl1 (fun j hj => hmem j (by simp [hj])) hnd.2
    have hfold : (i :: rest).foldl (fun sn i =>
        sn.set_atom_value cj i (sn.get_atom_value dj (rep i))) snap =
        rest.foldl (fun sn i =>
          sn.set_atom_value cj i (sn.get_atom_value dj (rep i)))
          (snap.set_atom_value cj i (snap.get_atom_value dj (rep i))) := rfl
    have hne_off : ∀ j r, j ≠ cj → r < count →
        snap.atoms_count * cj + i ≠ snap.atoms_count * j + r := by
      intro j r hj hr hcon
      rw [hcount] at hcon
      obtain ⟨he1, -⟩ := offset_inj hi hr hcon
      exact hj he1.symm
    refine ⟨hfold ▸ c1, ?_, ?_, ?_⟩
    · intro j r hj hr
      rw [hfold, c2 j r hj hr, get_set_atom_ne _ _ _ _ _ _ (hne_off j r hj hr)]
    · intro i' hi'
      rcases List.mem_cons.mp hi' with hi' | hi'
      · subst hi'
        rw [hfold, c4 i' hi hnd.1]
        rw [get_set_atom_same _ _ _ _ (by
          rw [hcount, hlen]
          have : count * cj + i' < count * (cj + 1) := by
            rw [Nat.mul_succ]; omega
          have hle : count * (cj + 1) ≤ count * K :=
            Nat.mul_le_mul_left count (by omega)
          omega)]
      · rw [hfold, c3 i' hi',
          get_set_atom_ne _ _ _ _ _ _ (hne_off dj (rep i')
            (fun h => hcd h.symm) (hrep i' (hmem i' (by simp [hi']))))]
    · intro i' hi' hni
      rw [hfold, c4 i' hi' (fun h => hni (by simp [h]))]
      rw [get_set_atom_ne _ _ _ _ _ _ (by
        rw [hcount]
        intro hcon
        obtain ⟨-, he2⟩ := offset_inj hi hi' hcon
        exact hni (by simp [he2]))]

/-! ### Connectivity semantics of the engine -/

/-- Cutoff adjacency between two in-range rows: Euclidean distance at most
the cutoff, compared in squared form. -/
def Clusterizer.Adj (c : Clusterizer) (a b : Nat) : Prop :=
  a < c.snapshot.atoms_count ∧ b < c.snapshot.atoms_count ∧
    distance_squared (c.get_atom_xyz b) (c.get_atom_xyz a) ≤
      c.cutoff * c.cutoff

/-- Two rows are connected by a chain of cutoff edges. -/
def Clusterizer.Connected (c : Clusterizer) : Nat → Nat → Prop :=
  Relation.ReflTransGen c.Adj

theorem Clusterizer.adj_symm (c : Clusterizer) {a b : Nat}
    (h : c.Adj a b) : c.Adj b a :=
  ⟨h.2.1, h.1, by rw [distance_squared_comm]; exact h.2.2⟩

theorem Clusterizer.connected_symm (c : Clusterizer) {a b : Nat}
    (h : c.Connected a b) : c.Connected b a := by
  induction h with
  | refl => exact Relation.ReflTransGen.refl
  | tail hab hbc ihc =>
    exact Relation.ReflTransGen.head (c.adj_symm hbc) ihc

theorem neighborIdx_mem_iff (c : Clusterizer) {a b : Nat}
    (ha : a < c.snapshot.atoms_count) :
    b ∈ neighborIdx ((List.range c.snapshot.atoms_count).map c.get_atom_xyz)
        c.cutoff a ↔ c.Adj a b := by
  rw [neighborIdx_eq c.get_atom_xyz (fun k => rfl), List.mem_filter,
      getD_map_range _ _ _ _ ha]
  rw [Clusterizer.Adj]
  simp only [List.mem_range, decide_eq_true_eq]
  tauto

theorem reachAdj_iff_connected (c : Clusterizer) {s : Nat}
    (hs : s < c.snapshot.atoms_count) (j : Nat) :
    ReachAdj (neighborIdx ((List.range c.snapshot.atoms_count).map
        c.get_atom_xyz) c.cutoff) s j ↔ c.Connected s j := by
  constructor
  · intro h
    have hmain : c.Connected s j ∧ j < c.snapshot.atoms_count := by
      induction h with
      | refl => exact ⟨Relation.ReflTransGen.refl, hs⟩
      | tail hmid hstep ihc =>
        rename_i u w
        obtain ⟨hconn, hu⟩ := ihc
        have hadj := (neighborIdx_mem_iff c hu).mp hstep
        exact ⟨hconn.tail hadj, hadj.2.1⟩
    exact hmain.1
  · intro h
    induction h with
    | refl => exact Relation.ReflTransGen.refl
    | tail hmid hstep ihc =>
      rename_i u w
      exact ihc.tail ((neighborIdx_mem_iff c hstep.1).mpr hstep)

theorem connected_lt (c : Clusterizer) {i k : Nat}
    (hi : i < c.snapshot.atoms_count) (h : c.Connected i k) :
    k < c.snapshot.atoms_count := by
  induction h with
  | refl => exact hi
  | tail _ hstep _ => exact hstep.2.1

theorem components_spec (c : Clusterizer) :
    (∀ C ∈ c.components, C ≠ [] ∧
      ∀ j k, j ∈ C → (k ∈ C ↔ c.Connected j k)) ∧
    (∀ i, i < c.snapshot.atoms_count → ∃ C ∈ c.components, i ∈ C) ∧
    (∀ C ∈ c.components, ∀ j ∈ C, j < c.snapshot.atoms_count) := by
  have hidx : ∀ k, (c.get_atom_xyz k).index = k := fun k => rfl
  set n := c.snapshot.atoms_count with hn
  set adjL := neighborIdx ((List.range n).map c.get_atom_xyz) c.cutoff
    with hadjL
  have hadj_eq : ∀ i, adjL i = (List.range n).filter
      (fun k => decide (distance_squared (c.get_atom_xyz k)
        (((List.range n).map c.get_atom_xyz).getD i ⟨0, 0, 0, 0⟩) ≤
          c.cutoff * c.cutoff)) := by
    intro i
    rw [hadjL, neighborIdx_eq c.get_atom_xyz hidx]
  have hnd : ∀ i, (adjL i).Nodup := by
    intro i
    rw [hadj_eq]
    exact (List.nodup_range n).filter _
  have hrange : ∀ i j, j ∈ adjL i → j < n := by
    intro i j hj
    rw [hadj_eq] at hj
    exact List.mem_range.mp (List.mem_of_mem_filter hj)
  have hsym : ∀ a b, a < n → b ∈ adjL a → a ∈ adjL b := by
    intro a b ha hb
    have hadj := (neighborIdx_mem_iff c ha).mp hb
    exact (neighborIdx_mem_iff c hadj.2.1).mpr (c.adj_symm hadj)
  have hv0 : ∀ u, u < n → ¬ vis (List.replicate n false) u := by
    intro u hu
    rw [vis, List.getD_eq_getElem?_getD, List.getElem?_replicate]
    simp [hu]
  obtain ⟨c1, c2, -⟩ := clusterizeLoop_spec adjL n hnd hsym hrange
    (List.range n) (List.replicate n false) []
    (by simp)
    (fun i hi => List.mem_range.mp hi)
    (fun u hu hv => absurd hv (hv0 u hu))
    (by simp)
    (fun u hu => by
      constructor
      · intro hv; exact absurd hv (hv0 u hu)
      · rintro ⟨C, hC, -⟩; simp at hC)
  have hcomps : c.components = (clusterizeLoop adjL n (List.range n)
      (List.replicate n false) []).1 := rfl
  refine ⟨?_, ?_, ?_⟩
  · intro C hC
    rw [hcomps] at hC
    obtain ⟨s, hs, hclass⟩ := c1 C hC
    have hclass' : ∀ j, j ∈ C ↔ c.Connected s j := by
      intro j
      rw [hclass j, reachAdj_iff_connected c hs]
    have hne : C ≠ [] := by
      intro hnil
      have := (hclass' s).mpr Relation.ReflTransGen.refl
      rw [hnil] at this
      simp at this
    refine ⟨hne, ?_⟩
    intro j k hj
    rw [hclass' j] at hj
    rw [hclass' k]
    constructor
    · intro h
      exact Relation.ReflTransGen.trans (c.connected_symm hj) h
    · intro h
      exact Relation.ReflTransGen.trans hj h
  · intro i hi
    rw [hcomps]
    exact c2 i (List.mem_range.mpr hi)
  · intro C hC j hj
    rw [hcomps] at hC
    obtain ⟨s, hs, hclass⟩ := c1 C hC
    have := (hclass j).mp hj
    rw [reachAdj_iff_connected c hs] at this
    exact connected_lt c hs this

/-! ### Copy-transform value semantics -/

theorem copy_keys (inp : DumpSnapshot) (additional : List Str)
    (indices : List Nat) :
    (copy_snapshot_with_indices_with_keys inp additional indices).keys =
      inp.keys ++ additional := rfl

theorem copy_count (inp : DumpSnapshot) (additional : List Str)
    (indices : List Nat) :
    (copy_snapshot_with_indices_with_keys inp additional indices).atoms_count =
      indices.length := rfl

theorem copy_step (inp : DumpSnapshot) (additional : List Str)
    (indices : List Nat) :
    (copy_snapshot_with_indices_with_keys inp additional indices).step =
      inp.step := rfl

theorem copy_sym_box (inp : DumpSnapshot) (additional : List Str)
    (indices : List Nat) :
    (copy_snapshot_with_indices_with_keys inp additional indices).sym_box =
      inp.sym_box := rfl

theorem copy_atoms_length (inp : DumpSnapshot) (additional : List Str)
    (indices : List Nat) :
    (copy_snapshot_with_indices_with_keys inp additional indices).atoms.length
      = indices.length * (inp.keys ++ additional).length := by
  show (writeRows indices.length _ 0 _).length = _
  rw [writeRows_length, DumpSnapshot.new]
  simp

theorem copy_value (inp : DumpSnapshot) (additional : List Str)
    (indices : List Nat) (j i : Nat) (hj : j < inp.keys.length)
    (hi : i < indices.length) :
    (copy_snapshot_with_indices_with_keys inp additional
        indices).get_atom_value j i =
      inp.get_atom_value j (indices.getD i 0) := by
  have hK : inp.keys.length ≤ (inp.keys ++ additional).length := by
    rw [List.length_append]; omega
  have hrows : (indices.map (fun idx =>
      (List.range inp.keys.length).map
        (fun j => inp.get_atom_value j idx))).getD i [] =
      (List.range inp.keys.length).map
        (fun j => inp.get_atom_value j (indices.getD i 0)) := by
    rw [List.getD_eq_getElem?_getD, List.getElem?_map,
      List.getElem?_eq_getElem hi]
    simp only [Option.map_some', Option.getD_some]
    rw [List.getD_eq_getElem?_getD, List.getElem?_eq_getElem hi]
    rfl
  have hlen : (DumpSnapshot.new (inp.keys ++ additional) inp.step
      indices.length inp.sym_box).atoms.length =
      indices.length * (inp.keys ++ additional).length := by
    rw [DumpSnapshot.new]
    simp
  show (writeRows indices.length _ 0 _).getD
      (indices.length * j + i) 0 = _
  rw [writeRows_getD_inside _ _ _ _ _ hi (by simp) (by omega)
    (by simp; omega)
    (by
      rw [hlen]
      have h1 : indices.length * j + i < indices.length * (j + 1) := by
        rw [Nat.mul_succ]; omega
      have h2 : indices.length * (j + 1) ≤
          indices.length * (inp.keys ++ additional).length :=
        Nat.mul_le_mul_left _ (by rw [List.length_append]; omega)
      omega)]
  rw [Nat.sub_zero, hrows]
  rw [List.getElem?_map, List.getElem?_range hj]
  rfl

theorem index_of_append_not_mem {k : Str} {l l' : List Str} (h : k ∉ l) :
    (l ++ l').indexOf k = l.length + l'.indexOf k := by
  induction l with
  | nil => simp
  | cons a l ih =>
    rw [List.cons_append]
    have hka : ¬ (a == k) = true := by
      simp only [List.mem_cons, not_or] at h
      simp [beq_iff_eq]
      exact fun he => h.1 he.symm
    rw [List.indexOf_cons]
    simp only [hka, cond_false]
    rw [ih (fun hm => h (by simp [hm]))]
    simp only [List.length_cons]
    omega

theorem index_of_append_mem {k : Str} {l : List Str} (l' : List Str)
    (h : k ∈ l) : (l ++ l').indexOf k = l.indexOf k := by
  induction l with
  | nil => simp at h
  | cons a l ih =>
    rw [List.cons_append, List.indexOf_cons, List.indexOf_cons]
    by_cases hka : (a == k) = true
    · simp [hka]
    · simp only [hka, cond_false]
      rcases List.mem_cons.mp h with he | hm
      · exfalso
        exact hka (by simp [he])
      · rw [ih hm]

theorem index_of_lt_length {k : Str} {l : List Str} (h : k ∈ l) :
    l.indexOf k < l.length := by
  induction l with
  | nil => simp at h
  | cons a l ih =>
    rw [List.indexOf_cons]
    by_cases hka : (a == k) = true
    · simp [hka]
    · simp only [hka, cond_false]
      rcases List.mem_cons.mp h with he | hm
      · exact absurd (by simp [he]) hka
      · have := ih hm
        simp only [List.length_cons]
        omega

theorem find_pred_congr {α : Type} (l : List α) (p q : α → Bool)
    (h : ∀ x ∈ l, p x = q x) : l.find? p = l.find? q := by
  induction l with
  | nil => rfl
  | cons a l ih =>
    rw [List.find?_cons, List.find?_cons, h a (by simp)]
    cases q a with
    | true => rfl
    | false => exact ih (fun x hx => h x (by simp [hx]))

theorem labelFold_step (cj dj : Nat) (rep : Nat → Nat) :
    ∀ (is : List Nat) (snap : DumpSnapshot),
      (is.foldl (fun sn i =>
        sn.set_atom_value cj i (sn.get_atom_value dj (rep i))) snap).step =
        snap.step := by
  intro is
  induction is with
  | nil => intro snap; rfl
  | cons i rest ih => intro snap; rw [List.foldl_cons, ih]; rfl

theorem new_count (inp : DumpSnapshot) (cutoff : Int) :
    (Clusterizer.new inp cutoff).snapshot.atoms_count = inp.atoms_count := by
  show (copy_snapshot_with_indices_with_keys inp [clusterKey]
    (List.range inp.atoms_count)).atoms_count = inp.atoms_count
  rw [copy_count, List.length_range]

theorem new_cluster_j (inp : DumpSnapshot) (cutoff : Int)
    (hcl : clusterKey ∉ inp.keys) :
    (Clusterizer.new inp cutoff).snapshot.get_property_index clusterKey =
      inp.keys.length := by
  show (inp.keys ++ [clusterKey]).indexOf clusterKey = inp.keys.length
  rw [index_of_append_not_mem hcl]
  simp [List.indexOf_cons]

theorem new_id_j (inp : DumpSnapshot) (cutoff : Int)
    (hid : "id".toList ∈ inp.keys) :
    (Clusterizer.new inp cutoff).snapshot.get_property_index "id".toList =
      inp.keys.indexOf "id".toList := by
  show (inp.keys ++ [clusterKey]).indexOf "id".toList = _
  exact index_of_append_mem _ hid

theorem new_value (inp : DumpSnapshot) (cutoff : Int) (j i : Nat)
    (hj : j < inp.keys.length) (hi : i < inp.atoms_count) :
    (Clusterizer.new inp cutoff).snapshot.get_atom_value j i =
      inp.get_atom_value j i := by
  show (copy_snapshot_with_indices_with_keys inp [clusterKey]
    (List.range inp.atoms_count)).get_atom_value j i = _
  rw [copy_value _ _ _ _ _ hj (by rw [List.length_range]; exact hi)]
  congr 1
  rw [List.getD_eq_getElem?_getD, List.getElem?_range hi]
  rfl

theorem clusterize_spec (inp : DumpSnapshot) (cutoff : Int)
    (choose : List Nat → Nat)
    (hid : "id".toList ∈ inp.keys)
    (hcl : clusterKey ∉ inp.keys)
    (hbuf : inp.atoms.length = inp.atoms_count * inp.keys.length)
    (hchoose : ∀ l : List Nat, l ≠ [] → choose l ∈ l) :
    ∃ L, (Clusterizer.clusterize choose
        (Clusterizer.new inp cutoff)).snapshots = [(inp.step, L)] ∧
      L.atoms_count = inp.atoms_count ∧
      (∀ i, i < inp.atoms_count → ∃ rep, rep < inp.atoms_count ∧
        (Clusterizer.new inp cutoff).Connected i rep ∧
        L.get_atom_value
            ((Clusterizer.new inp cutoff).snapshot.get_property_index
              clusterKey) i =
          inp.get_atom_value (inp.keys.indexOf "id".toList) rep) ∧
      (∀ i k, i < inp.atoms_count → k < inp.atoms_count →
        (Clusterizer.new inp cutoff).Connected i k →
        L.get_atom_value
            ((Clusterizer.new inp cutoff).snapshot.get_property_index
              clusterKey) i =
          L.get_atom_value
            ((Clusterizer.new inp cutoff).snapshot.get_property_index
              clusterKey) k) := by
  set c := Clusterizer.new inp cutoff with hc
  have hcount : c.snapshot.atoms_count = inp.atoms_count := new_count inp cutoff
  set K := inp.keys.length with hK
  set n := inp.atoms_count with hn
  have hcj : c.snapshot.get_property_index clusterKey = K :=
    new_cluster_j inp cutoff hcl
  have hdj : c.snapshot.get_property_index "id".toList =
      inp.keys.indexOf "id".toList := new_id_j inp cutoff hid
  have hdjlt : inp.keys.indexOf "id".toList < K := index_of_lt_length hid
  have hkeys : c.snapshot.keys = inp.keys ++ [clusterKey] := rfl
  have hlenbuf : c.snapshot.atoms.length = n * (K + 1) := by
    show (copy_snapshot_with_indices_with_keys inp [clusterKey]
      (List.range inp.atoms_count)).atoms.length = _
    rw [copy_atoms_length, List.length_range, List.length_append]
    rfl
  obtain ⟨hcls, hcover, -⟩ := components_spec c
  set comps := c.components with hcomps
  set repOf : Nat → Nat := fun i =>
    choose ((comps.find? (fun comp => i ∈ comp)).getD []) with hrepOf
  have hrep_spec : ∀ i, i < n → repOf i ∈
      ((comps.find? (fun comp => i ∈ comp)).getD []) ∧
      ∃ C, comps.find? (fun comp => i ∈ comp) = some C ∧ i ∈ C := by
    intro i hi
    obtain ⟨C, hC, hiC⟩ := hcover i (by rw [hcount]; exact hi)
    have hsome : (comps.find? (fun comp => i ∈ comp)).isSome := by
      rw [List.find?_isSome]
      exact ⟨C, hC, by simpa using hiC⟩
    obtain ⟨C₀, hC₀⟩ := Option.isSome_iff_exists.mp hsome
    have hiC₀ : i ∈ C₀ := by simpa using List.find?_some hC₀
    have hne : C₀ ≠ [] := fun hnil => by rw [hnil] at hiC₀; simp at hiC₀
    refine ⟨?_, C₀, hC₀, hiC₀⟩
    show choose ((comps.find? (fun comp => i ∈ comp)).getD []) ∈
      ((comps.find? (fun comp => i ∈ comp)).getD [])
    rw [hC₀]
    exact hchoose C₀ hne
  have hrep_conn : ∀ i, i < n → c.Connected i (repOf i) ∧ repOf i < n := by
    intro i hi
    obtain ⟨hmem, C₀, hC₀, hiC₀⟩ := hrep_spec i hi
    have hC₀mem : C₀ ∈ comps := List.mem_of_find?_eq_some hC₀
    obtain ⟨-, hclass⟩ := hcls C₀ hC₀mem
    have hconn : c.Connected i (repOf i) := by
      rw [← hclass i (repOf i) hiC₀]
      rw [hC₀] at hmem
      exact hmem
    refine ⟨hconn, ?_⟩
    have := connected_lt c (by rw [hcount]; exact hi) hconn
    rw [hcount] at this
    exact this
  have hfold : Clusterizer.clusterize choose c = DumpFile.new
      [(List.range c.snapshot.atoms_count).foldl (fun sn i =>
        sn.set_atom_value (c.snapshot.get_property_index clusterKey) i
          (sn.get_atom_value (c.snapshot.get_property_index "id".toList)
            (repOf i))) c.snapshot] := rfl
  obtain ⟨f1, f2, f3, f4⟩ := labelFold_spec n (K + 1)
    (c.snapshot.get_property_index clusterKey)
    (c.snapshot.get_property_index "id".toList) repOf
    (by rw [hcj, hdj]; omega) (by rw [hcj]; omega) (by rw [hdj]; omega)
    (fun i hi => (hrep_conn i hi).2)
    (List.range c.snapshot.atoms_count) c.snapshot hcount hlenbuf
    (fun i hi => by rw [← hcount]; exact List.mem_range.mp hi)
    (List.nodup_range _)
  set L := (List.range c.snapshot.atoms_count).foldl (fun sn i =>
    sn.set_atom_value (c.snapshot.get_property_index clusterKey) i
      (sn.get_atom_value (c.snapshot.get_property_index "id".toList)
        (repOf i))) c.snapshot with hL
  have hstep : L.step = inp.step := by
    rw [hL, labelFold_step]
    rfl
  refine ⟨L, ?_, f1, ?_, ?_⟩
  · rw [hfold, DumpFile.new]
    simp only [List.foldl_cons, List.foldl_nil]
    rw [mapInsertEntry]
    simp [hstep]
  · intro i hi
    refine ⟨repOf i, (hrep_conn i hi).2, (hrep_conn i hi).1, ?_⟩
    have := f3 i (by rw [hcount]; exact List.mem_range.mpr hi)
    rw [this, hdj]
    exact new_value inp cutoff _ _ hdjlt (hrep_conn i hi).2
  · intro i k hi hk hconn
    have hsameC : comps.find? (fun comp => i ∈ comp) =
        comps.find? (fun comp => k ∈ comp) := by
      refine find_pred_congr _ _ _ ?_
      intro C hC
      obtain ⟨-, hclass⟩ := hcls C hC
      simp only [decide_eq_decide]
      constructor
      · intro hiC
        exact (hclass i k hiC).mpr hconn
      · intro hkC
        exact (hclass k i hkC).mpr (c.connected_symm hconn)
    have hrepik : repOf i = repOf k := by
      rw [hrepOf]
      simp only
      rw [hsameC]
    have hvi := f3 i (by rw [hcount]; exact List.mem_range.mpr hi)
    have hvk := f3 k (by rw [hcount]; exact List.mem_range.mpr hk)
    rw [hvi, hvk, hrepik]

theorem adj_mono (inp : DumpSnapshot) (c1 c2 : Int) (h0 : 0 ≤ c1)
    (h12 : c1 ≤ c2) {a b : Nat}
    (h : (Clusterizer.new inp c1).Adj a b) :
    (Clusterizer.new inp c2).Adj a b := by
  obtain ⟨ha, hb, hd⟩ := h
  refine ⟨ha, hb, le_trans hd ?_⟩
  exact mul_le_mul h12 h12 h0 (le_trans h0 h12)

theorem connected_mono (inp : DumpSnapshot) (c1 c2 : Int) (h0 : 0 ≤ c1)
    (h12 : c1 ≤ c2) {a b : Nat}
    (h : (Clusterizer.new inp c1).Connected a b) :
    (Clusterizer.new inp c2).Connected a b :=
  Relation.ReflTransGen.mono (fun _ _ => adj_mono inp c1 c2 h0 h12) h

theorem components_monotone (inp : DumpSnapshot) (c1 c2 : Int)
    (h0 : 0 ≤ c1) (h12 : c1 ≤ c2) :
    ∀ C ∈ (Clusterizer.new inp c1).components,
      ∃ D ∈ (Clusterizer.new inp c2).components, ∀ x ∈ C, x ∈ D := by
  intro C hC
  obtain ⟨hcls1, -, hlt1⟩ := components_spec (Clusterizer.new inp c1)
  obtain ⟨hcls2, hcover2, -⟩ := components_spec (Clusterizer.new inp c2)
  obtain ⟨hne, hclass1⟩ := hcls1 C hC
  obtain ⟨j0, hj0⟩ := List.exists_mem_of_ne_nil C hne
  have hj0n : j0 < (Clusterizer.new inp c1).snapshot.atoms_count :=
    hlt1 C hC j0 hj0
  have hsnap_eq : (Clusterizer.new inp c2).snapshot =
      (Clusterizer.new inp c1).snapshot := rfl
  obtain ⟨D, hD, hj0D⟩ := hcover2 j0 (by rw [hsnap_eq]; exact hj0n)
  refine ⟨D, hD, ?_⟩
  intro x hx
  obtain ⟨-, hclass2⟩ := hcls2 D hD
  rw [hclass2 j0 x hj0D]
  exact connected_mono inp c1 c2 h0 h12 ((hclass1 j0 x hj0).mp hx)

/-! ### Max-cluster fold and collection-insert lemmas -/

theorem maxFold_acc (l : List (Nat × Nat)) :
    ∀ acc : Nat × Nat,
      ((l.foldl (fun acc p => if p.2 > acc.2 then (p.1, p.2) else acc) acc)
          = acc ∨
        (l.foldl (fun acc p => if p.2 > acc.2 then (p.1, p.2) else acc) acc)
          ∈ l) ∧
      acc.2 ≤ (l.foldl
        (fun acc p => if p.2 > acc.2 then (p.1, p.2) else acc) acc).2 ∧
      (∀ p ∈ l, p.2 ≤ (l.foldl
        (fun acc p => if p.2 > acc.2 then (p.1, p.2) else acc) acc).2) := by
  induction l with
  | nil => intro acc; exact ⟨Or.inl rfl, le_refl _, by simp⟩
  | cons p l ih =>
    intro acc
    rw [List.foldl_cons]
    by_cases hc : p.2 > acc.2
    · rw [if_pos hc]
      obtain ⟨ih1, ih2, ih3⟩ := ih (p.1, p.2)
      refine ⟨?_, le_trans (le_of_lt hc) ih2, ?_⟩
      · rcases ih1 with h | h
        · exact Or.inr (by rw [h]; simp)
        · exact Or.inr (by simp [h])
      · intro q hq
        rcases List.mem_cons.mp hq with hq | hq
        · subst hq
          exact ih2
        · exact ih3 q hq
    · rw [if_neg hc]
      obtain ⟨ih1, ih2, ih3⟩ := ih acc
      refine ⟨?_, ih2, ?_⟩
      · rcases ih1 with h | h
        · exact Or.inl h
        · exact Or.inr (by simp [h])
      · intro q hq
        rcases List.mem_cons.mp hq with hq | hq
        · subst hq
          omega
        · exact ih3 q hq

theorem maxClusterFold_spec (entries : List (Nat × Nat))
    (hpos : ∀ p ∈ entries, 0 < p.2) (hne : entries ≠ []) :
    maxClusterFold entries ∈ entries ∧
      ∀ p ∈ entries, p.2 ≤ (maxClusterFold entries).2 := by
  obtain ⟨h1, -, h3⟩ := maxFold_acc entries (0, 0)
  rw [maxClusterFold]
  refine ⟨?_, h3⟩
  rcases h1 with h | h
  · exfalso
    obtain ⟨q, hq⟩ := List.exists_mem_of_ne_nil entries hne
    have := h3 q hq
    rw [h] at this
    have := hpos q hq
    omega
  · exact h

theorem find?_mapInsert_same (m : List (Nat × DumpSnapshot)) (k : Nat)
    (v : DumpSnapshot) :
    (mapInsertEntry m k v).find? (fun p => p.1 = k) = some (k, v) := by
  rw [mapInsertEntry]
  by_cases hany : m.any (fun p => p.1 = k)
  · rw [if_pos hany]
    induction m with
    | nil => simp at hany
    | cons p rest ih =>
      rw [List.map_cons, List.find?_cons]
      by_cases hp : p.1 = k
      · rw [if_pos hp]
        simp
      · rw [if_neg hp]
        rw [show (decide (p.1 = k)) = false from by simp [hp]]
        refine ih ?_
        rcases List.any_eq_true.mp hany with ⟨q, hq, hqk⟩
        rcases List.mem_cons.mp hq with hq | hq
        · exact absurd (by simpa using hqk) (hq ▸ hp)
        · exact List.any_eq_true.mpr ⟨q, hq, hqk⟩
  · rw [if_neg hany, List.find?_append]
    have hnone : m.find? (fun p => p.1 = k) = none := by
      rw [List.find?_eq_none]
      intro q hq
      simp only [decide_eq_true_eq]
      intro hqk
      exact hany (List.any_eq_true.mpr ⟨q, hq, by simpa using hqk⟩)
    rw [hnone]
    simp

theorem find?_mapInsert_ne (m : List (Nat × DumpSnapshot)) (k : Nat)
    (v : DumpSnapshot) (k' : Nat) (h : k' ≠ k) :
    (mapInsertEntry m k v).find? (fun p => p.1 = k') =
      m.find? (fun p => p.1 = k') := by
  rw [mapInsertEntry]
  by_cases hany : m.any (fun p => p.1 = k)
  · rw [if_pos hany]
    induction m with
    | nil => rfl
    | cons p rest ih =>
      rw [List.map_cons, List.find?_cons, List.find?_cons]
      by_cases hp : p.1 = k
      · rw [if_pos hp]
        rw [show (decide ((k, v).1 = k')) = false from by
          simp only [decide_eq_false_iff_not]
          simpa using Ne.symm h]
        rw [show (decide (p.1 = k')) = false from by
          simp only [decide_eq_false_iff_not]
          rw [hp]
          exact Ne.symm h]
        by_cases hany' : rest.any (fun p => p.1 = k)
        · exact ih hany'
        · rw [show rest.map (fun p => if p.1 = k then (k, v) else p) = rest
            from by
              refine (List.map_congr_left ?_).trans (List.map_id _)
              intro q hq
              rw [if_neg (fun hqk =>
                hany' (List.any_eq_true.mpr ⟨q, hq, by simpa using hqk⟩))]
              rfl]
      · rw [if_neg hp]
        cases hpk' : (decide (p.1 = k')) with
        | true => rfl
        | false =>
          show List.find? (fun p => decide (p.1 = k'))
              (rest.map (fun p => if p.1 = k then (k, v) else p)) =
            List.find? (fun p => decide (p.1 = k')) rest
          by_cases hany' : rest.any (fun p => p.1 = k)
          · exact ih hany'
          · rw [show rest.map (fun p => if p.1 = k then (k, v) else p) = rest
              from by
                refine (List.map_congr_left ?_).trans (List.map_id _)
                intro q hq
                rw [if_neg (fun hqk =>
                  hany' (List.any_eq_true.mpr ⟨q, hq, by simpa using hqk⟩))]
                rfl]
  · rw [if_neg hany, List.find?_append]
    have hkv : (decide ((k, v).1 = k')) = false := by
      simp only [decide_eq_false_iff_not]
      simpa using Ne.symm h
    cases hf : m.find? (fun p => p.1 = k') with
    | some q => rfl
    | none => simp [List.find?_cons, hkv]

theorem dumpFile_new_append (l : List DumpSnapshot) (s : DumpSnapshot) :
    DumpFile.new (l ++ [s]) =
      ⟨mapInsertEntry (DumpFile.new l).snapshots s.step s⟩ := by
  rw [DumpFile.new, DumpFile.new, List.foldl_append]
  rfl

/-! ## Concrete instances used in the claim analyses -/

/-- A two-row snapshot: both rows carry id 7, and the rows sit 10 apart
on the x axis, so they are disconnected at cutoff 0. -/
def inpC2 : DumpSnapshot :=
  { step := 0
    atoms_count := 2
    sym_box := { boundaries := [], bounds := [(0, 1), (0, 1), (0, 1)] }
    keys := ["id".toList, "x".toList, "y".toList, "z".toList]
    atoms := [7, 7, 0, 10, 0, 0, 0, 0] }

/-- A three-row snapshot with ids 7, 8, 9 at x = 0, 2, 10: rows 0 and 1
are within cutoff 3 of each other, row 2 is isolated. -/
def inpC3 : DumpSnapshot :=
  { step := 0
    atoms_count := 3
    sym_box := { boundaries := [], bounds := [(0, 1), (0, 1), (0, 1)] }
    keys := ["id".toList, "x".toList, "y".toList, "z".toList]
    atoms := [7, 8, 9, 0, 2, 10, 0, 0, 0, 0, 0, 0] }

/-- A well-formed dump block: the two header/value line pairs consumed by
the `DumpFile::read` loop followed by the five body lines and the data
rows handed to `DumpSnapshot::read`. -/
def blockT (t n : Nat) (rows : List Str) : List Str :=
  ["ITEM: TIMESTEP".toList, printNat t,
   "ITEM: NUMBER OF ATOMS".toList, printNat n,
   "ITEM: BOX BOUNDS pp pp pp".toList,
   "0 1".toList, "0 1".toList, "0 1".toList,
   "ITEM: ATOMS id x".toList] ++ rows

/-- The snapshot store that the timestep-200 block of the three-block
file in the C4 scenario materializes to. -/
def snapC200 : DumpSnapshot :=
  { step := 200
    atoms_count := 1
    sym_box := { boundaries := "pp pp pp".toList
                 bounds := [(0, 1), (0, 1), (0, 1)] }
    keys := ["id".toList, "x".toList]
    atoms := [8, 4] }

/-! ## Shared small helpers for the claim theorems -/

theorem getD_replicate_zero (m p : Nat) :
    (List.replicate m (0 : Int)).getD p 0 = 0 := by
  induction m generalizing p with
  | zero => rfl
  | succ m ih =>
    cases p with
    | zero => rfl
    | succ p => rw [List.replicate_succ, List.getD_cons_succ]; exact ih p

theorem getD_map_of_lt {α β : Type} (f : α → β) (l : List α) (i : Nat)
    (d : β) (e : α) (hi : i < l.length) :
    (l.map f).getD i d = f (l.getD i e) := by
  rw [List.getD_eq_getElem?_getD, List.getD_eq_getElem?_getD,
    List.getElem?_map]
  cases hx : l[i]? with
  | none => rw [List.getElem?_eq_none_iff] at hx; omega
  | some a => rfl

/-! ## C1 -/

/-- C1 counterexample: a data row whose second token is non-numeric (so
the row also has fewer numeric tokens than properties) does **not** abort
`DumpSnapshot::read`; the bad token is silently dropped and the missing
`x` value is left zero-filled. -/
theorem C1_zero_fill :
    (DumpSnapshot.read ["ITEM: BOX BOUNDS pp pp pp".toList,
        "0 1".toList, "0 1".toList, "0 1".toList,
        "ITEM: ATOMS id x".toList, "7 foo".toList] 5 1).map
      (fun s => (s.keys, s.atoms)) =
      Except.ok (["id".toList, "x".toList], [7, 0]) := by rfl

/-- C1 (amended): `DumpSnapshot::read` splits each of the `n` present data
rows on whitespace and keeps only the tokens that parse as numbers;
non-numeric tokens are silently dropped, and every cell whose column has
no corresponding numeric token stays zero-filled.  Such rows do not abort
the read. -/
theorem C1_row_parsing (lbox b1 b2 b3 lkeys : Str) (rows extra : List Str)
    (step n : Nat) (keys : List Str) (bnds : List (Int × Int))
    (hlb : HEADER_SYM_BOX.length ≤ lbox.length)
    (hlk : HEADER_ATOMS.length ≤ lkeys.length)
    (hrows : rows.length = n)
    (hkeys : buildKeys (splitWS (lkeys.drop HEADER_ATOMS.length)) =
      Except.ok keys)
    (hbnds : readBorders [b1, b2, b3] = bnds)
    (hb3 : bnds.length = 3)
    (hcols : ∀ r ∈ rows, ((splitWS r).filterMap parseInt).length ≤
      keys.length) :
    ∃ s, DumpSnapshot.read (lbox :: b1 :: b2 :: b3 :: lkeys ::
        (rows ++ extra)) step n = Except.ok s ∧
      s.keys = keys ∧ s.atoms_count = n ∧
      ∀ j i, j < keys.length → i < n →
        s.get_atom_value j i =
          (((splitWS (rows.getD i [])).filterMap parseInt)[j]?).getD 0 := by
  refine ⟨_, DumpSnapshot.read_ok lbox b1 b2 b3 lkeys rows extra step n keys
    bnds hlb hlk hrows hkeys hbnds hb3, rfl, rfl, ?_⟩
  intro j i hj hi
  have hn : 0 < n := by omega
  have hbuf : n * j + i < (List.replicate (n * keys.length) (0 : Int)).length
      := by
    rw [List.length_replicate]
    have h1 : n * (j + 1) ≤ n * keys.length := Nat.mul_le_mul_left n hj
    have h2 : n * j + i < n * (j + 1) := by rw [Nat.mul_succ]; omega
    omega
  show (writeRows n (List.replicate (n * keys.length) 0) 0
      (rows.map (fun l => (splitWS l).filterMap parseInt))).getD
        (n * j + i) 0 = _
  rw [writeRows_getD_inside
    (rows.map (fun l => (splitWS l).filterMap parseInt))
    (List.replicate (n * keys.length) 0) 0 j i hi
    (by rw [List.length_map, hrows]; omega) (by omega)
    (by rw [List.length_map, hrows]; omega) hbuf]
  rw [Nat.sub_zero,
    getD_map_of_lt (fun l => (splitWS l).filterMap parseInt) rows i [] []
      (by omega)]
  cases hget : ((splitWS (rows.getD i [])).filterMap parseInt)[j]? with
  | none => rw [getD_replicate_zero]; rfl
  | some v => rfl

/-- Witness for C1 at a concrete well-formed block with one full row. -/
theorem C1_row_parsing_witness :
    ∃ s, DumpSnapshot.read ["ITEM: BOX BOUNDS pp pp pp".toList,
        "0 1".toList, "0 1".toList, "0 1".toList,
        "ITEM: ATOMS id x".toList, "7 3".toList] 5 1 = Except.ok s ∧
      s.keys = ["id".toList, "x".toList] ∧ s.atoms_count = 1 ∧
      ∀ j i, j < (["id".toList, "x".toList] : List Str).length → i < 1 →
        s.get_atom_value j i =
          (((splitWS ((["7 3".toList] : List Str).getD i [])).filterMap
            parseInt)[j]?).getD 0 :=
  C1_row_parsing "ITEM: BOX BOUNDS pp pp pp".toList "0 1".toList
    "0 1".toList "0 1".toList "ITEM: ATOMS id x".toList
    ["7 3".toList] [] 5 1 ["id".toList, "x".toList]
    [(0, 1), (0, 1), (0, 1)] (by decide) (by decide) (by decide) (by rfl)
    (by rfl) (by decide) (by decide)

/-! ## C2 -/

/-- C2 counterexample: on `inpC2` at cutoff 0 the two rows are in
different connected components, yet both receive the cluster value 7
(their common `id` value), so equal cluster values do **not** imply
connectivity. -/
theorem C2_same_label_disconnected :
    ((Clusterizer.clusterize (fun l => l.getD 0 0)
        (Clusterizer.new inpC2 0)).snapshots.map
      (fun p => p.2.get_property clusterKey)) = [[7, 7]] ∧
      (Clusterizer.new inpC2 0).components = [[0], [1]] ∧
      ¬ (Clusterizer.new inpC2 0).Connected 0 1 := by
  refine ⟨by decide, by decide, ?_⟩
  intro h
  obtain ⟨hcls, -, -⟩ := components_spec (Clusterizer.new inpC2 0)
  have hmem : [0] ∈ (Clusterizer.new inpC2 0).components := by decide
  obtain ⟨-, hiff⟩ := hcls [0] hmem
  have h1 : (1 : Nat) ∈ [0] := (hiff 0 1 (by decide)).mpr h
  exact absurd h1 (by decide)

/-- C2 (amended): for every run of `Clusterizer::clusterize` (any
iteration order `choose` of the per-cluster hash sets), every row of the
output receives exactly one cluster value, and **connected rows receive
equal cluster values** (the converse fails: distinct components can share
a value when their representative `id`s coincide). -/
theorem C2_label_congruence (inp : DumpSnapshot) (cutoff : Int)
    (choose : List Nat → Nat)
    (hx : "x".toList ∈ inp.keys) (hy : "y".toList ∈ inp.keys)
    (hz : "z".toList ∈ inp.keys) (hcut : 0 ≤ cutoff)
    (hid : "id".toList ∈ inp.keys)
    (hcl : clusterKey ∉ inp.keys)
    (hbuf : inp.atoms.length = inp.atoms_count * inp.keys.length)
    (hchoose : ∀ l : List Nat, l ≠ [] → choose l ∈ l) :
    ∃ L, (Clusterizer.clusterize choose
        (Clusterizer.new inp cutoff)).snapshots = [(inp.step, L)] ∧
      L.atoms_count = inp.atoms_count ∧
      (∀ i k, i < inp.atoms_count → k < inp.atoms_count →
        (Clusterizer.new inp cutoff).Connected i k →
        L.get_atom_value
            ((Clusterizer.new inp cutoff).snapshot.get_property_index
              clusterKey) i =
          L.get_atom_value
            ((Clusterizer.new inp cutoff).snapshot.get_property_index
              clusterKey) k) := by
  obtain ⟨L, h1, h2, -, h4⟩ := clusterize_spec inp cutoff choose hid hcl
    hbuf hchoose
  exact ⟨L, h1, h2, h4⟩

/-- Witness for C2 on the three-row snapshot at cutoff 3, with the
head-first iteration order. -/
theorem C2_label_congruence_witness :
    ∃ L, (Clusterizer.clusterize (fun l => l.getD 0 0)
        (Clusterizer.new inpC3 3)).snapshots = [(inpC3.step, L)] ∧
      L.atoms_count = inpC3.atoms_count ∧
      (∀ i k, i < inpC3.atoms_count → k < inpC3.atoms_count →
        (Clusterizer.new inpC3 3).Connected i k →
        L.get_atom_value
            ((Clusterizer.new inpC3 3).snapshot.get_property_index
              clusterKey) i =
          L.get_atom_value
            ((Clusterizer.new inpC3 3).snapshot.get_property_index
              clusterKey) k) :=
  C2_label_congruence inpC3 3 (fun l => l.getD 0 0) (by decide) (by decide)
    (by decide) (by decide) (by decide) (by decide) (by decide)
    (by intro l hl
        cases l with
        | nil => exact absurd rfl hl
        | cons a t => exact List.mem_cons_self a t)

/-! ## C3 -/

/-- C3 counterexample: on `inpC3` (ids 7, 8, 9) at cutoff 3 the first
flood fill is seeded at row 0 (id 7), yet with the head-first hash-set
iteration order the cluster value written for rows 0 and 1 is 8, and with
the last-first order it is 7 — the output is not the seed row id and not
a deterministic function of snapshot and cutoff. -/
theorem C3_choose_dependent :
    ((Clusterizer.clusterize (fun l => l.getD 0 0)
        (Clusterizer.new inpC3 3)).snapshots.map
      (fun p => p.2.get_property clusterKey)) = [[8, 8, 9]] ∧
      ((Clusterizer.clusterize (fun l => l.getLastD 0)
          (Clusterizer.new inpC3 3)).snapshots.map
        (fun p => p.2.get_property clusterKey)) = [[7, 7, 9]] ∧
      inpC3.get_property "id".toList = [7, 8, 9] := by
  exact ⟨by decide, by decide, by decide⟩

/-- C3 (amended): the cluster value written for each row is the `id`
property of **some** member of that row's connected component — the
member the hash-set iteration order happens to yield first — not
necessarily the seed row's id, and different iteration orders may write
different values. -/
theorem C3_label_rep (inp : DumpSnapshot) (cutoff : Int)
    (choose : List Nat → Nat)
    (hid : "id".toList ∈ inp.keys)
    (hcl : clusterKey ∉ inp.keys)
    (hbuf : inp.atoms.length = inp.atoms_count * inp.keys.length)
    (hchoose : ∀ l : List Nat, l ≠ [] → choose l ∈ l) :
    ∃ L, (Clusterizer.clusterize choose
        (Clusterizer.new inp cutoff)).snapshots = [(inp.step, L)] ∧
      (∀ i, i < inp.atoms_count → ∃ rep, rep < inp.atoms_count ∧
        (Clusterizer.new inp cutoff).Connected i rep ∧
        L.get_atom_value
            ((Clusterizer.new inp cutoff).snapshot.get_property_index
              clusterKey) i =
          inp.get_atom_value (inp.keys.indexOf "id".toList) rep) := by
  obtain ⟨L, h1, -, h3, -⟩ := clusterize_spec inp cutoff choose hid hcl
    hbuf hchoose
  exact ⟨L, h1, h3⟩

/-- Witness for C3 on the two-row snapshot at cutoff 0. -/
theorem C3_label_rep_witness :
    ∃ L, (Clusterizer.clusterize (fun l => l.getD 0 0)
        (Clusterizer.new inpC2 0)).snapshots = [(inpC2.step, L)] ∧
      (∀ i, i < inpC2.atoms_count → ∃ rep, rep < inpC2.atoms_count ∧
        (Clusterizer.new inpC2 0).Connected i rep ∧
        L.get_atom_value
            ((Clusterizer.new inpC2 0).snapshot.get_property_index
              clusterKey) i =
          inpC2.get_atom_value (inpC2.keys.indexOf "id".toList) rep) :=
  C3_label_rep inpC2 0 (fun l => l.getD 0 0) (by decide) (by decide)
    (by decide)
    (by intro l hl
        cases l with
        | nil => exact absurd rfl hl
        | cons a t => exact List.mem_cons_self a t)

/-! ## C4 -/

/-- C4: a block whose timestep is requested-but-absent from the set (and
does not exceed the maximum requested value) is skipped in full — the
loop state is exactly as if the block's `number_of_atoms + 5` body lines
had been removed, with no snapshot accumulated — and a three-block file
at timesteps 100, 200, 300 read with requested set containing only 200
succeeds with exactly the timestep-200 store. -/
theorem C4_skip_blocks :
    (∀ (l1 l3 : Str) (rest : List Str) (ts : List Nat)
        (acc : List (Nat × DumpSnapshot)) (t n : Nat),
        parseNat l1 = some t → parseNat l3 = some n →
        ts ≠ [] → ¬ t > ts.getLastD 0 → t ∉ ts →
        DumpFile.readLoop
            (HEADER_TIMESTEP :: l1 :: HEADER_NUM_OF_ATOMS :: l3 :: rest)
            ts acc =
          DumpFile.readLoop (rest.drop (n + 5)) ts acc) ∧
      DumpFile.read (blockT 100 1 ["7 3".toList] ++
          blockT 200 1 ["8 4".toList] ++ blockT 300 1 ["9 5".toList])
        [200] = Except.ok ⟨[(200, snapC200)]⟩ := by
  constructor
  · intro l1 l3 rest ts acc t n hpt hpn hts hmax hnot
    rw [DumpFile.readLoop]
    have hlen : (HEADER_TIMESTEP :: l1 :: HEADER_NUM_OF_ATOMS :: l3 ::
        rest).length + 1 = (rest.length + 4) + 1 := by
      simp
    rw [hlen,
      readLoopAux_step_skip (rest.length + 4) l1 l3 rest ts acc t n hpt hpn
        hts hmax hnot]
    exact readLoopAux_eq_readLoop ts acc
      (by rw [List.length_drop]; omega)
  · rfl

/-- Witness for the universally quantified skip equation of C4, at a
concrete four-line block head. -/
theorem C4_skip_blocks_witness :
    DumpFile.readLoop (HEADER_TIMESTEP :: "100".toList ::
        HEADER_NUM_OF_ATOMS :: "2".toList :: ["tail".toList]) [200] [] =
      DumpFile.readLoop ((["tail".toList] : List Str).drop (2 + 5))
        [200] [] :=
  C4_skip_blocks.1 "100".toList "2".toList ["tail".toList] [200] [] 100 2
    (by decide) (by decide) (by decide) (by decide) (by decide)

/-! ## C5 -/

/-- C5: writing a well-formed snapshot store (at least one property,
whitespace-free distinct keys, three bounds pairs, full value buffer) and
parsing the written text back yields exactly the original store — same
timestep, box, schema and atom values — and re-writing the parsed store
produces identical output text. -/
theorem C5_write_read (s : DumpSnapshot) (h : WFSnapshot s) :
    DumpFile.read s.write [] = Except.ok ⟨[(s.step, s)]⟩ ∧
      ((⟨[(s.step, s)]⟩ : DumpFile).snapshots.map
        (fun p => p.2.write)) = [s.write] :=
  ⟨write_read_roundtrip s h, rfl⟩

/-- Witness for C5 on the concrete three-row snapshot. -/
theorem C5_write_read_witness :
    DumpFile.read inpC3.write [] = Except.ok ⟨[(inpC3.step, inpC3)]⟩ ∧
      ((⟨[(inpC3.step, inpC3)]⟩ : DumpFile).snapshots.map
        (fun p => p.2.write)) = [inpC3.write] :=
  C5_write_read inpC3 (by unfold WFSnapshot IsTok; decide)

/-! ## C6 -/

/-- C6 counterexample: two valid iteration orders of the same per-cluster
count map (clusters 5 and 2, one atom each) make the max-cluster fold
return 5 and 2 respectively — the tie is broken by iteration order, not
by smallest id, so the selected id differs between runs. -/
theorem C6_tie_order :
    IsCountEnum [5, 2] [(5, 1), (2, 1)] ∧
      IsCountEnum [5, 2] [(2, 1), (5, 1)] ∧
      (maxClusterFold [(5, 1), (2, 1)]).1 = 5 ∧
      (maxClusterFold [(2, 1), (5, 1)]).1 = 2 := by
  refine ⟨?_, ?_, by decide, by decide⟩ <;> (unfold IsCountEnum; decide)

/-- C6 (amended): on every enumeration of the per-cluster count map the
max-cluster fold returns one of the map's entries, and its count is
maximal among all entries; which of several tied maximal ids is returned
depends on the map's iteration order. -/
theorem C6_max_count (cluster : List Int) (entries : List (Nat × Nat))
    (henu : IsCountEnum cluster entries) (hne : entries ≠ []) :
    maxClusterFold entries ∈ entries ∧
      ∀ p ∈ entries, p.2 ≤ (maxClusterFold entries).2 := by
  obtain ⟨-, hpos, -⟩ := henu
  exact maxClusterFold_spec entries
    (fun p hp => Nat.pos_of_ne_zero (hpos p hp).2) hne

/-- Witness for C6 on a concrete two-entry count map. -/
theorem C6_max_count_witness :
    maxClusterFold [(5, 1), (2, 1)] ∈ ([(5, 1), (2, 1)] :
        List (Nat × Nat)) ∧
      ∀ p ∈ ([(5, 1), (2, 1)] : List (Nat × Nat)),
        p.2 ≤ (maxClusterFold [(5, 1), (2, 1)]).2 :=
  C6_max_count [5, 2] [(5, 1), (2, 1)]
    (by unfold IsCountEnum; decide) (by decide)

/-! ## C7 -/

/-- C7: for cutoffs 0 ≤ c1 ≤ c2, every cluster the clusterizer discovers
at cutoff c1 is contained in some cluster it discovers at cutoff c2 on
the same snapshot — raising the cutoff never splits a cluster. -/
theorem C7_cutoff_monotone (inp : DumpSnapshot) (c1 c2 : Int)
    (h0 : 0 ≤ c1) (h12 : c1 ≤ c2) :
    ∀ C ∈ (Clusterizer.new inp c1).components,
      ∃ D ∈ (Clusterizer.new inp c2).components, ∀ x ∈ C, x ∈ D :=
  components_monotone inp c1 c2 h0 h12

/-- Witness for C7: the singleton cluster of row 0 at cutoff 0 on the
three-row snapshot is contained in a cluster at cutoff 3. -/
theorem C7_cutoff_monotone_witness :
    ∃ D ∈ (Clusterizer.new inpC3 3).components,
      ∀ x ∈ ([0] : List Nat), x ∈ D :=
  C7_cutoff_monotone inpC3 0 3 (by decide) (by decide) [0] (by decide)

/-! ## C8 -/

/-- C8 counterexample: two XYZ points with bit-identical coordinates but
different row indices are **not** equal under the derived equality and
feed different word streams to the hasher. -/
theorem C8_index_in_eq :
    xyzBeq ⟨0, 0, 0, 0⟩ ⟨0, 0, 0, 1⟩ = false ∧
      xyzHashStream ⟨0, 0, 0, 0⟩ ≠ xyzHashStream ⟨0, 0, 0, 1⟩ := by
  exact ⟨by decide, by decide⟩

/-- C8 (amended): the derived equality and hash of XYZ compare **all**
fields — the three coordinates and the row index — so two points agree
under equality or hashing exactly when all four fields agree. -/
theorem C8_eq_and_hash (a b : XYZ) :
    (xyzBeq a b = true ↔ a = b) ∧
      (xyzHashStream a = xyzHashStream b ↔ a = b) := by
  cases a
  cases b
  constructor
  · simp [xyzBeq, XYZ.mk.injEq, and_assoc]
  · simp [xyzHashStream, XYZ.mk.injEq]

/-! ## C9 -/

/-- C9: subsetting a subset composes — for valid index sequences A (into
S) and B (into the first subset), `subset(subset(S, A), B)` has the same
schema, the same row count and exactly the same property values at every
row as `subset(S, C)` where `C i = A (B i)`. -/
theorem C9_subset_compose (S : DumpSnapshot) (A B : List Nat)
    (hA : ∀ a ∈ A, a < S.atoms_count) (hB : ∀ b ∈ B, b < A.length) :
    (copy_snapshot_with_indices (copy_snapshot_with_indices S A) B).keys =
      (copy_snapshot_with_indices S
        (B.map (fun b => A.getD b 0))).keys ∧
      (copy_snapshot_with_indices (copy_snapshot_with_indices S A)
          B).atoms_count =
        (copy_snapshot_with_indices S
          (B.map (fun b => A.getD b 0))).atoms_count ∧
      ∀ j i, j < S.keys.length → i < B.length →
        (copy_snapshot_with_indices (copy_snapshot_with_indices S A)
            B).get_atom_value j i =
          (copy_snapshot_with_indices S
            (B.map (fun b => A.getD b 0))).get_atom_value j i := by
  refine ⟨?_, ?_, ?_⟩
  · simp [copy_snapshot_with_indices, copy_keys]
  · simp [copy_snapshot_with_indices, copy_count]
  · intro j i hj hi
    have hj1 : j < (copy_snapshot_with_indices S A).keys.length := by
      rw [copy_snapshot_with_indices, copy_keys, List.length_append]
      omega
    have hBi : B.getD i 0 ∈ B := by
      rw [List.getD_eq_getElem?_getD, List.getElem?_eq_getElem hi]
      exact List.getElem_mem hi
    simp only [copy_snapshot_with_indices]
    rw [copy_value (copy_snapshot_with_indices_with_keys S [] A) [] B j i
        hj1 hi,
      copy_value S [] A j (B.getD i 0) hj (hB _ hBi),
      copy_value S [] (B.map (fun b => A.getD b 0)) j i hj
        (by rw [List.length_map]; omega),
      getD_map_of_lt (fun b => A.getD b 0) B i 0 0 hi]

/-- Witness for C9 on the three-row snapshot with A = [2, 0],
B = [1, 1]. -/
theorem C9_subset_compose_witness :
    (copy_snapshot_with_indices (copy_snapshot_with_indices inpC3 [2, 0])
        [1, 1]).keys =
      (copy_snapshot_with_indices inpC3
        (([1, 1] : List Nat).map (fun b =>
          ([2, 0] : List Nat).getD b 0))).keys ∧
      (copy_snapshot_with_indices (copy_snapshot_with_indices inpC3 [2, 0])
          [1, 1]).atoms_count =
        (copy_snapshot_with_indices inpC3
          (([1, 1] : List Nat).map (fun b =>
            ([2, 0] : List Nat).getD b 0))).atoms_count ∧
      ∀ j i, j < inpC3.keys.length → i < ([1, 1] : List Nat).length →
        (copy_snapshot_with_indices
            (copy_snapshot_with_indices inpC3 [2, 0])
            [1, 1]).get_atom_value j i =
          (copy_snapshot_with_indices inpC3
            (([1, 1] : List Nat).map (fun b =>
              ([2, 0] : List Nat).getD b 0))).get_atom_value j i :=
  C9_subset_compose inpC3 [2, 0] [1, 1] (by decide) (by decide)

/-! ## C10 -/

/-- C10: `DumpFile::new` always succeeds, and when a later snapshot in
the input vector carries an already-present step value it silently
replaces the earlier entry in the collection; `DumpFile::read`, in
contrast, fails with `DuplicateSnapshots` on a file whose materialized
blocks repeat a timestep. -/
theorem C10_new_last_wins :
    (∀ (l : List DumpSnapshot) (s : DumpSnapshot) (k : Nat),
        (DumpFile.new (l ++ [s])).find? k =
          if k = s.step then some s else (DumpFile.new l).find? k) ∧
      DumpFile.read (blockT 100 1 ["7 3".toList] ++
          blockT 100 1 ["7 3".toList]) [] =
        Except.error DumpParsingError.DuplicateSnapshots := by
  constructor
  · intro l s k
    rw [dumpFile_new_append]
    show ((mapInsertEntry (DumpFile.new l).snapshots s.step s).find?
      (fun p => p.1 = k)).map Prod.snd = _
    by_cases hk : k = s.step
    · subst hk
      rw [find?_mapInsert_same, if_pos rfl]
      rfl
    · rw [find?_mapInsert_ne _ _ _ k hk, if_neg hk]
      rfl
  · rfl
